import Mathlib

namespace Bip

/-!
Verification of the bip build orchestrator design.  The build engine is
described by the design document; the repository sources additionally
contain the platform/plugin documentation and the C sample programs
(`mkdir.c`, `unimkdir/main.c`), which are embedded directly.
Components are numbered by declaration order in the recipe; `deps i`
lists the components that component `i` links against (`link_libs`).
-/

/-- Modelled from the spec: the Dependency Graph Builder's readiness test.
A component is ready when it has not been emitted yet and every component
it depends on has already been emitted.  (The engine itself is not among
the repository sources; this follows section 4.3 of the design.) -/
def ready (deps : Nat → List Nat) (emitted : List Nat) (i : Nat) : Bool :=
  !(decide (i ∈ emitted)) && (deps i).all (fun d => decide (d ∈ emitted))

/-- Modelled from the spec: pick the earliest-declared ready component,
breaking ties by declaration order. -/
def pickNext (n : Nat) (deps : Nat → List Nat) (emitted : List Nat) : Option Nat :=
  (List.range n).find? (ready deps emitted)

/-- Modelled from the spec: for a stuck (not ready) component, its first
dependency that has not been emitted. -/
def nextdep (deps : Nat → List Nat) (emitted : List Nat) (u : Nat) : Nat :=
  ((deps u).find? (fun d => !(decide (d ∈ emitted)))).getD 0

/-- The suffix of a list starting at the first occurrence of `cur`. -/
def suffixFrom (cur : Nat) : List Nat → List Nat
  | [] => []
  | x :: xs => if x = cur then x :: xs else suffixFrom cur xs

/-- Walk the "first unemitted dependency" function until a node repeats;
the repeated part is a dependency cycle. -/
def cycleWalk (g : Nat → Nat) : Nat → List Nat → Nat → List Nat
  | 0, _, _ => []
  | fuel+1, path, cur =>
    if cur ∈ path then suffixFrom cur path
    else cycleWalk g fuel (path ++ [cur]) (g cur)

/-- Each consecutive pair of the list is a `link_libs` edge (the second
element is a dependency of the first). -/
def cycleChainB (deps : Nat → List Nat) : List Nat → Bool
  | [] => true
  | [_] => true
  | x :: y :: rest => decide (y ∈ deps x) && cycleChainB deps (y :: rest)

/-- The list is an ordered cycle path: nonempty, consecutive elements are
dependency edges, and the first element is a dependency of the last. -/
def IsCycleB (deps : Nat → List Nat) (c : List Nat) : Bool :=
  match c with
  | [] => false
  | x :: _ =>
    cycleChainB deps c &&
      (match c.getLast? with
       | some z => decide (x ∈ deps z)
       | none => false)

/-- Modelled from the spec: when graph building is stuck, extract the full
ordered cycle path for the `CycleError` (section 4.3: "A detected cycle
reports the full cycle path"). -/
def extractCycle (n : Nat) (deps : Nat → List Nat) (emitted : List Nat) : List Nat :=
  match (List.range n).find? (fun u => !(decide (u ∈ emitted))) with
  | none => []
  | some u0 => cycleWalk (nextdep deps emitted) (n+1) [] u0

/-- Modelled from the spec: Kahn's algorithm with declaration-order
tie-breaking, one emission per unit of fuel. -/
def kahnAux (n : Nat) (deps : Nat → List Nat) : Nat → List Nat → Except (List Nat) (List Nat)
  | 0, _ => Except.ok []
  | fuel+1, emitted =>
    match pickNext n deps emitted with
    | some i =>
      match kahnAux n deps fuel (emitted ++ [i]) with
      | Except.ok rest => Except.ok (i :: rest)
      | Except.error e => Except.error e
    | none => Except.error (extractCycle n deps emitted)

/-- Modelled from the spec: `build_graph` (section 4.3) — topological
ordering of the `link_libs` graph, or a `CycleError` carrying the ordered
cycle path. -/
def build_graph (n : Nat) (deps : Nat → List Nat) : Except (List Nat) (List Nat) :=
  kahnAux n deps n []

/-- `Depends deps a b`: component `a` transitively depends on `b` through
`link_libs` edges. -/
def Depends (deps : Nat → List Nat) (a b : Nat) : Prop :=
  Relation.TransGen (fun x y => y ∈ deps x) a b

/-- The `link_libs` graph of the first `n` components has no cycle. -/
def Acyclic (n : Nat) (deps : Nat → List Nat) : Prop :=
  ∀ i < n, ¬ Depends deps i i

/-- Recipe invariant: `link_libs` only names other components. -/
def WellFormed (n : Nat) (deps : Nat → List Nat) : Prop :=
  ∀ i < n, ∀ d ∈ deps i, d < n

instance (n : Nat) (deps : Nat → List Nat) : Decidable (WellFormed n deps) := by
  unfold WellFormed
  infer_instance

/-- `order` is a dependency-respecting order: no duplicates, and every
component's dependencies appear strictly before it. -/
def TopoOrder (deps : Nat → List Nat) (order : List Nat) : Prop :=
  order.Nodup ∧
    ∀ k, (hk : k < order.length) →
      ∀ d ∈ deps (order.get ⟨k, hk⟩), d ∈ order.take k

instance (deps : Nat → List Nat) (order : List Nat) : Decidable (TopoOrder deps order) := by
  unfold TopoOrder
  infer_instance

lemma find?_first {α : Type} (p : α → Bool) :
    ∀ (l : List α) (x : α), l.find? p = some x →
      ∃ (k : Nat) (h : k < l.length), l.get ⟨k, h⟩ = x ∧ p x = true ∧
        ∀ (j : Nat) (hj : j < k), p (l.get ⟨j, Nat.lt_trans hj h⟩) = false := by
  intro l
  induction l with
  | nil => intro x hx; simp [List.find?] at hx
  | cons a l ih =>
    intro x hx
    cases hpa : p a with
    | true =>
      have hax : a = x := by
        simpa [List.find?, hpa] using hx
      subst hax
      exact ⟨0, Nat.succ_pos _, rfl, hpa, fun j hj => absurd hj (Nat.not_lt_zero j)⟩
    | false =>
      have hx' : l.find? p = some x := by
        simpa [List.find?, hpa] using hx
      obtain ⟨k, h, hget, hpx, hmin⟩ := ih x hx'
      refine ⟨k + 1, Nat.succ_lt_succ h, hget, hpx, ?_⟩
      intro j hj
      cases j with
      | zero => simpa using hpa
      | succ j => exact hmin j (Nat.lt_of_succ_lt_succ hj)

lemma range_find?_first {n : Nat} {p : Nat → Bool} {x : Nat}
    (h : (List.range n).find? p = some x) :
    x < n ∧ p x = true ∧ ∀ j < x, p j = false := by
  obtain ⟨k, hk, hget, hpx, hmin⟩ := find?_first p (List.range n) x h
  have hkx : k = x := by
    have := List.get_range k hk
    rw [hget] at this; exact this.symm
  subst hkx
  refine ⟨by simpa using hk, hpx, ?_⟩
  intro j hj
  have := hmin j hj
  rwa [List.get_range] at this

lemma ready_iff {deps : Nat → List Nat} {emitted : List Nat} {i : Nat} :
    ready deps emitted i = true ↔ i ∉ emitted ∧ ∀ d ∈ deps i, d ∈ emitted := by
  simp [ready, List.all_eq_true]

lemma kahnAux_ok_props (n : Nat) (deps : Nat → List Nat) :
    ∀ (fuel : Nat) (emitted out : List Nat),
      kahnAux n deps fuel emitted = Except.ok out →
      out.length = fuel ∧
      (∀ k, (hk : k < out.length) →
          ready deps (emitted ++ out.take k) (out.get ⟨k, hk⟩) = true ∧
          (∀ j < out.get ⟨k, hk⟩, ready deps (emitted ++ out.take k) j = false) ∧
          out.get ⟨k, hk⟩ < n) := by
  intro fuel
  induction fuel with
  | zero =>
    intro emitted out hout
    have : out = [] := by
      simpa [kahnAux] using hout.symm
    subst this
    exact ⟨rfl, fun k hk => absurd hk (by simp)⟩
  | succ fuel ih =>
    intro emitted out hout
    rw [kahnAux] at hout
    cases hpick : pickNext n deps emitted with
    | none => simp [hpick] at hout
    | some i =>
      simp only [hpick] at hout
      cases hrec : kahnAux n deps fuel (emitted ++ [i]) with
      | error e => simp [hrec] at hout
      | ok rest =>
        simp only [hrec] at hout
        have hout' : out = i :: rest := by
          simpa using hout.symm
        subst hout'
        obtain ⟨hlen, hprops⟩ := ih (emitted ++ [i]) rest hrec
        obtain ⟨hin, hpi, hmin⟩ := range_find?_first hpick
        constructor
        · simp [hlen]
        · intro k hk
          cases k with
          | zero =>
            refine ⟨by simpa using hpi, ?_, hin⟩
            intro j hj
            simpa using hmin j hj
          | succ k =>
            have hk' : k < rest.length := by simpa using hk
            have hgets : (i :: rest).get ⟨k + 1, hk⟩ = rest.get ⟨k, hk'⟩ := rfl
            have htake : emitted ++ (i :: rest).take (k + 1) = (emitted ++ [i]) ++ rest.take k := by
              simp [List.take_succ_cons]
            obtain ⟨h1, h2, h3⟩ := hprops k hk'
            rw [hgets, htake]
            exact ⟨h1, fun j hj => h2 j (by simpa [hgets] using hj), h3⟩

lemma kahnAux_ok_nodup (n : Nat) (deps : Nat → List Nat) :
    ∀ (fuel : Nat) (emitted out : List Nat), emitted.Nodup →
      kahnAux n deps fuel emitted = Except.ok out → (emitted ++ out).Nodup := by
  intro fuel
  induction fuel with
  | zero =>
    intro emitted out hnd hout
    have : out = [] := by simpa [kahnAux] using hout.symm
    subst this; simpa using hnd
  | succ fuel ih =>
    intro emitted out hnd hout
    rw [kahnAux] at hout
    cases hpick : pickNext n deps emitted with
    | none => simp [hpick] at hout
    | some i =>
      simp only [hpick] at hout
      cases hrec : kahnAux n deps fuel (emitted ++ [i]) with
      | error e => simp [hrec] at hout
      | ok rest =>
        simp only [hrec] at hout
        have hout' : out = i :: rest := by simpa using hout.symm
        subst hout'
        have hready : ready deps emitted i = true := (range_find?_first hpick).2.1
        have hi : i ∉ emitted := (ready_iff.mp hready).1
        have hnd' : (emitted ++ [i]).Nodup := by
          rw [List.nodup_append]
          refine ⟨hnd, by simp, ?_⟩
          intro a ha hai
          simp at hai
          subst hai
          exact hi ha
        have := ih (emitted ++ [i]) rest hnd' hrec
        simpa using this

lemma build_graph_ok_props {n : Nat} {deps : Nat → List Nat} {order : List Nat}
    (h : build_graph n deps = Except.ok order) :
    order.length = n ∧ order.Nodup ∧ (∀ x ∈ order, x < n) ∧ (∀ i < n, i ∈ order) ∧
      TopoOrder deps order ∧
      (∀ k, (hk : k < order.length) →
          ready deps (order.take k) (order.get ⟨k, hk⟩) = true ∧
          ∀ j < order.get ⟨k, hk⟩, ready deps (order.take k) j = false) := by
  obtain ⟨hlen, hprops⟩ := kahnAux_ok_props n deps n [] order h
  have hnd : order.Nodup := by
    simpa using kahnAux_ok_nodup n deps n [] order (by simp) h
  have hgreedy : ∀ k, (hk : k < order.length) →
      ready deps (order.take k) (order.get ⟨k, hk⟩) = true ∧
      ∀ j < order.get ⟨k, hk⟩, ready deps (order.take k) j = false := by
    intro k hk
    obtain ⟨h1, h2, _⟩ := hprops k hk
    rw [List.nil_append] at h1 h2
    exact ⟨h1, h2⟩
  have hlt : ∀ x ∈ order, x < n := by
    intro x hx
    obtain ⟨k, hget⟩ := List.mem_iff_get.mp hx
    have h3 : order.get k < n := (hprops k.1 k.2).2.2
    rw [hget] at h3
    exact h3
  have hcomplete : ∀ i < n, i ∈ order := by
    intro i hi
    have hsub : order.toFinset ⊆ Finset.range n := by
      intro x hx
      rw [List.mem_toFinset] at hx
      exact Finset.mem_range.mpr (hlt x hx)
    have hcard : (Finset.range n).card ≤ order.toFinset.card := by
      rw [List.toFinset_card_of_nodup hnd, hlen, Finset.card_range]
    have heq : order.toFinset = Finset.range n :=
      Finset.eq_of_subset_of_card_le hsub hcard
    have : i ∈ order.toFinset := heq ▸ Finset.mem_range.mpr hi
    exact List.mem_toFinset.mp this
  refine ⟨hlen, hnd, hlt, hcomplete, ⟨hnd, ?_⟩, hgreedy⟩
  intro k hk d hd
  have h1 := (hgreedy k hk).1
  exact (ready_iff.mp h1).2 d hd

lemma topo_dep_lt {deps : Nat → List Nat} {order : List Nat} (ht : TopoOrder deps order)
    {a d : Nat} (ha : a ∈ order) (hd : d ∈ deps a) :
    d ∈ order ∧ order.indexOf d < order.indexOf a := by
  obtain ⟨hnd, htopo⟩ := ht
  have hka : order.indexOf a < order.length := List.indexOf_lt_length.mpr ha
  have hget : order.get ⟨order.indexOf a, hka⟩ = a := List.indexOf_get hka
  have hdt : d ∈ order.take (order.indexOf a) := htopo (order.indexOf a) hka d (by rwa [hget])
  have hdo : d ∈ order := List.take_subset _ _ hdt
  refine ⟨hdo, ?_⟩
  rw [List.mem_take_iff_getElem] at hdt
  obtain ⟨j, hj, hjd⟩ := hdt
  have hjlen : j < order.length := Nat.lt_of_lt_of_le hj (by
    simp [Nat.min_le_right])
  have hkd : order.indexOf d < order.length := List.indexOf_lt_length.mpr hdo
  have hgd : order.get ⟨order.indexOf d, hkd⟩ = d := List.indexOf_get hkd
  have hinj := List.nodup_iff_injective_get.mp hnd
  have : (⟨order.indexOf d, hkd⟩ : Fin order.length) = ⟨j, hjlen⟩ := by
    apply hinj
    rw [hgd]
    simpa using hjd.symm
  have hjeq : order.indexOf d = j := by simpa using congrArg Fin.val this
  rw [hjeq]
  exact Nat.lt_of_lt_of_le hj (Nat.min_le_left _ _)

lemma depends_indexOf_lt {deps : Nat → List Nat} {order : List Nat} (ht : TopoOrder deps order)
    {a b : Nat} (ha : a ∈ order) (hdep : Depends deps a b) :
    b ∈ order ∧ order.indexOf b < order.indexOf a := by
  induction hdep with
  | single h => exact topo_dep_lt ht ha h
  | tail _ hr ih =>
    obtain ⟨hb, hlt⟩ := ih
    obtain ⟨hc, hlt'⟩ := topo_dep_lt ht hb hr
    exact ⟨hc, Nat.lt_trans hlt' hlt⟩

lemma acyclic_of_build_graph_ok {n : Nat} {deps : Nat → List Nat} {order : List Nat}
    (h : build_graph n deps = Except.ok order) : Acyclic n deps := by
  intro i hi hdep
  have hmem : i ∈ order := (build_graph_ok_props h).2.2.2.1 i hi
  have := (depends_indexOf_lt (build_graph_ok_props h).2.2.2.2.1 hmem hdep).2
  exact Nat.lt_irrefl _ this

lemma suffixFrom_eq_cons {cur : Nat} :
    ∀ {path : List Nat}, cur ∈ path → ∃ t, suffixFrom cur path = cur :: t := by
  intro path
  induction path with
  | nil => intro h; simp at h
  | cons x xs ih =>
    intro h
    by_cases hx : x = cur
    · subst hx; exact ⟨xs, by simp [suffixFrom]⟩
    · have hmem : cur ∈ xs := by
        rcases List.mem_cons.mp h with h' | h'
        · exact absurd h'.symm hx
        · exact h'
      obtain ⟨t, ht⟩ := ih hmem
      exact ⟨t, by simpa [suffixFrom, hx] using ht⟩

lemma suffixFrom_suffix (cur : Nat) : ∀ (path : List Nat), suffixFrom cur path <:+ path := by
  intro path
  induction path with
  | nil => simp [suffixFrom]
  | cons x xs ih =>
    by_cases hx : x = cur
    · simp [suffixFrom, hx]
    · rw [suffixFrom, if_neg hx]
      exact ih.trans (List.suffix_cons x xs)

lemma cycleChainB_of_chain {deps : Nat → List Nat} {g : Nat → Nat} :
    ∀ {c : List Nat}, List.Chain' (fun a b => b = g a) c →
      (∀ x ∈ c, g x ∈ deps x) → cycleChainB deps c = true := by
  intro c
  induction c with
  | nil => intro _ _; rfl
  | cons x xs ih =>
    intro hchain hmem
    cases xs with
    | nil => rfl
    | cons y rest =>
      obtain ⟨hxy, hchain'⟩ := List.chain'_cons.mp hchain
      have hy : y ∈ deps x := by
        rw [hxy]; exact hmem x (by simp)
      rw [cycleChainB]
      refine (Bool.and_eq_true _ _).mpr ⟨by simpa using hy, ?_⟩
      exact ih hchain' (fun z hz => hmem z (List.mem_cons_of_mem x hz))

lemma chain'_last_eq {g : Nat → Nat} {path : List Nat} {cur : Nat}
    (h : List.Chain' (fun a b => b = g a) (path ++ [cur])) (hne : path ≠ []) :
    cur = g (path.getLast hne) := by
  obtain ⟨_, _, hrel⟩ := List.chain'_append.mp h
  have hlast : path.getLast? = some (path.getLast hne) :=
    List.getLast?_eq_getLast_of_ne_nil hne
  exact hrel (path.getLast hne) hlast cur rfl

lemma nodup_subset_length_le {l₁ l₂ : List Nat} (h : l₁.Nodup) (hs : ∀ x ∈ l₁, x ∈ l₂) :
    l₁.length ≤ l₂.length := by
  have h1 : l₁.toFinset.card = l₁.length := List.toFinset_card_of_nodup h
  have h2 : l₁.toFinset ⊆ l₂.toFinset := by
    intro x hx
    rw [List.mem_toFinset] at hx ⊢
    exact hs x hx
  calc l₁.length = l₁.toFinset.card := h1.symm
    _ ≤ l₂.toFinset.card := Finset.card_le_card h2
    _ ≤ l₂.length := List.toFinset_card_le _

lemma cycleWalk_spec (deps : Nat → List Nat) (g : Nat → Nat) (SL : List Nat)
    (hSg : ∀ x ∈ SL, g x ∈ SL ∧ g x ∈ deps x) :
    ∀ (fuel : Nat) (path : List Nat) (cur : Nat),
      (∀ x ∈ path, x ∈ SL) → cur ∈ SL → path.Nodup →
      List.Chain' (fun a b => b = g a) (path ++ [cur]) →
      SL.length + 1 ≤ fuel + path.length →
      cycleWalk g fuel path cur ≠ [] ∧
      IsCycleB deps (cycleWalk g fuel path cur) = true ∧
      (∀ x ∈ cycleWalk g fuel path cur, x ∈ SL) := by
  intro fuel
  induction fuel with
  | zero =>
    intro path cur hsub hcur hnd _ hfuel
    have hle : path.length ≤ SL.length := nodup_subset_length_le hnd hsub
    omega
  | succ fuel ih =>
    intro path cur hsub hcur hnd hchain hfuel
    rw [cycleWalk]
    by_cases hmem : cur ∈ path
    · rw [if_pos hmem]
      obtain ⟨t, hct⟩ := suffixFrom_eq_cons hmem
      have hsfx : suffixFrom cur path <:+ path := suffixFrom_suffix cur path
      obtain ⟨pre, hpre⟩ := suffixFrom_suffix cur path
      have hpne : path ≠ [] := by
        intro h; rw [h] at hmem; simp at hmem
      have hcne : suffixFrom cur path ≠ [] := by rw [hct]; simp
      have hcsub : ∀ x ∈ suffixFrom cur path, x ∈ SL := by
        intro x hx
        exact hsub x (hsfx.subset hx)
      have hchain_path : List.Chain' (fun a b => b = g a) path :=
        hchain.prefix (List.prefix_append path [cur])
      have hchain_c : List.Chain' (fun a b => b = g a) (suffixFrom cur path) :=
        hchain_path.suffix hsfx
      have hchainB : cycleChainB deps (suffixFrom cur path) = true :=
        cycleChainB_of_chain hchain_c (fun x hx => (hSg x (hcsub x hx)).2)
      have hlastc : (suffixFrom cur path).getLast? = path.getLast? := by
        conv_rhs => rw [← hpre]
        exact (List.getLast?_append_of_ne_nil pre hcne).symm
      have hlastp : path.getLast? = some (path.getLast hpne) :=
        List.getLast?_eq_getLast_of_ne_nil hpne
      have hgl : path.getLast hpne ∈ SL := hsub _ (List.getLast_mem hpne)
      have hcurg : cur = g (path.getLast hpne) := chain'_last_eq hchain hpne
      have hwrap : cur ∈ deps (path.getLast hpne) := by
        rw [hcurg]; exact (hSg _ hgl).2
      refine ⟨hcne, ?_, hcsub⟩
      rw [hct] at hchainB hlastc ⊢
      rw [IsCycleB, hlastc, hlastp]
      simp [hchainB, hwrap]
    · rw [if_neg hmem]
      have hnd' : (path ++ [cur]).Nodup := by
        rw [List.nodup_append]
        refine ⟨hnd, by simp, ?_⟩
        intro a ha hac
        simp at hac
        subst hac
        exact hmem ha
      have hsub' : ∀ x ∈ path ++ [cur], x ∈ SL := by
        intro x hx
        rcases List.mem_append.mp hx with h | h
        · exact hsub x h
        · simp at h; subst h; exact hcur
      have hchain' : List.Chain' (fun a b => b = g a) ((path ++ [cur]) ++ [g cur]) := by
        rw [List.chain'_append]
        refine ⟨hchain, List.chain'_singleton _, ?_⟩
        intro x hx y hy
        have hlast : (path ++ [cur]).getLast? = some cur := by
          exact (List.getLast?_append_of_ne_nil path (by simp)).trans (by simp)
        rw [hlast] at hx
        simp at hx hy
        rw [← hx, ← hy]
      have := ih (path ++ [cur]) (g cur) hsub' (hSg cur hcur).1 hnd' hchain' (by simp; omega)
      simpa using this

lemma extractCycle_spec {n : Nat} {deps : Nat → List Nat} {emitted : List Nat}
    (hwf : WellFormed n deps)
    (hstuck : pickNext n deps emitted = none)
    (hexists : ∃ u, u < n ∧ u ∉ emitted) :
    extractCycle n deps emitted ≠ [] ∧
    IsCycleB deps (extractCycle n deps emitted) = true ∧
    (∀ x ∈ extractCycle n deps emitted, x < n) := by
  classical
  set SL := (List.range n).filter (fun u => !(decide (u ∈ emitted))) with hSL
  have hmemSL : ∀ x, x ∈ SL ↔ x < n ∧ x ∉ emitted := by
    intro x
    simp [hSL, List.mem_filter]
  have hnotready : ∀ u, u < n → ready deps emitted u = false := by
    intro u hu
    have := List.find?_eq_none.mp hstuck u (List.mem_range.mpr hu)
    simpa using this
  have hSg : ∀ x ∈ SL, nextdep deps emitted x ∈ SL ∧ nextdep deps emitted x ∈ deps x := by
    intro x hx
    obtain ⟨hxn, hxe⟩ := (hmemSL x).mp hx
    have hrx : ready deps emitted x = false := hnotready x hxn
    have hex : ∃ d ∈ deps x, d ∉ emitted := by
      by_contra hcon
      push_neg at hcon
      have : ready deps emitted x = true := ready_iff.mpr ⟨hxe, hcon⟩
      rw [this] at hrx; exact Bool.true_eq_false.mp hrx
    obtain ⟨d, hd, hde⟩ := hex
    have hfind : (deps x).find? (fun d => !(decide (d ∈ emitted))) ≠ none := by
      intro hnone
      have := List.find?_eq_none.mp hnone d hd
      simp [hde] at this
    cases hf : (deps x).find? (fun d => !(decide (d ∈ emitted))) with
    | none => exact absurd hf hfind
    | some d0 =>
      have hd0p := List.find?_some hf
      have hd0e : d0 ∉ emitted := by simpa using hd0p
      have hd0m : d0 ∈ deps x := List.mem_of_find?_eq_some hf
      have hnd : nextdep deps emitted x = d0 := by
        simp [nextdep, hf]
      rw [hnd]
      exact ⟨(hmemSL d0).mpr ⟨hwf x hxn d0 hd0m, hd0e⟩, hd0m⟩
  obtain ⟨u, hun, hue⟩ := hexists
  have hfind0 : (List.range n).find? (fun u => !(decide (u ∈ emitted))) ≠ none := by
    intro hnone
    have := List.find?_eq_none.mp hnone u (List.mem_range.mpr hun)
    simp [hue] at this
  cases hf0 : (List.range n).find? (fun u => !(decide (u ∈ emitted))) with
  | none => exact absurd hf0 hfind0
  | some u0 =>
    have hu0p := List.find?_some hf0
    have hu0n : u0 < n := List.mem_range.mp (List.mem_of_find?_eq_some hf0)
    have hu0 : u0 ∈ SL := (hmemSL u0).mpr ⟨hu0n, by simpa using hu0p⟩
    have hlenSL : SL.length ≤ n := by
      calc SL.length ≤ (List.range n).length := List.length_filter_le _ _
        _ = n := List.length_range n
    have hspec := cycleWalk_spec deps (nextdep deps emitted) SL hSg (n + 1) [] u0
      (by intro x hx; simp at hx) hu0 (by simp) (by simp) (by simp; omega)
    have hec : extractCycle n deps emitted = cycleWalk (nextdep deps emitted) (n + 1) [] u0 := by
      simp [extractCycle, hf0]
    rw [hec]
    refine ⟨hspec.1, hspec.2.1, ?_⟩
    intro x hx
    exact ((hmemSL x).mp (hspec.2.2 x hx)).1

lemma kahnAux_error_cycle {n : Nat} {deps : Nat → List Nat} (hwf : WellFormed n deps) :
    ∀ (fuel : Nat) (emitted : List Nat) (e : List Nat), emitted.Nodup →
      (∀ x ∈ emitted, x < n) → emitted.length + fuel = n →
      kahnAux n deps fuel emitted = Except.error e →
      e ≠ [] ∧ IsCycleB deps e = true ∧ (∀ x ∈ e, x < n) := by
  intro fuel
  induction fuel with
  | zero =>
    intro emitted e _ _ _ hout
    simp [kahnAux] at hout
  | succ fuel ih =>
    intro emitted e hnd hlt hlen hout
    rw [kahnAux] at hout
    cases hpick : pickNext n deps emitted with
    | some i =>
      simp only [hpick] at hout
      cases hrec : kahnAux n deps fuel (emitted ++ [i]) with
      | ok rest => simp [hrec] at hout
      | error e' =>
        simp only [hrec] at hout
        have he : e' = e := by simpa using hout
        rw [← he]
        obtain ⟨hin, hpi, _⟩ := range_find?_first hpick
        have hinn : i ∉ emitted := (ready_iff.mp hpi).1
        refine ih (emitted ++ [i]) e' ?_ ?_ ?_ hrec
        · rw [List.nodup_append]
          refine ⟨hnd, by simp, ?_⟩
          intro a ha hai
          simp at hai; subst hai
          exact hinn ha
        · intro x hx
          rcases List.mem_append.mp hx with h | h
          · exact hlt x h
          · simp at h; subst h; exact hin
        · simp; omega
    | none =>
      simp only [hpick] at hout
      have he : extractCycle n deps emitted = e := by simpa using hout
      have hexists : ∃ u, u < n ∧ u ∉ emitted := by
        by_contra hcon
        push_neg at hcon
        have hsub : Finset.range n ⊆ emitted.toFinset := by
          intro x hx
          rw [List.mem_toFinset]
          exact hcon x (Finset.mem_range.mp hx)
        have : n ≤ emitted.length := by
          calc n = (Finset.range n).card := (Finset.card_range n).symm
            _ ≤ emitted.toFinset.card := Finset.card_le_card hsub
            _ = emitted.length := List.toFinset_card_of_nodup hnd
        omega
      rw [← he]
      exact extractCycle_spec hwf hpick hexists

lemma build_graph_error_cycle {n : Nat} {deps : Nat → List Nat} {e : List Nat}
    (hwf : WellFormed n deps) (h : build_graph n deps = Except.error e) :
    e ≠ [] ∧ IsCycleB deps e = true ∧ (∀ x ∈ e, x < n) :=
  kahnAux_error_cycle hwf n [] e (by simp) (by simp) (by simp) h

lemma cycleChainB_reflTrans {deps : Nat → List Nat} :
    ∀ (c : List Nat) (hne : c ≠ []), cycleChainB deps c = true →
      Relation.ReflTransGen (fun a b => b ∈ deps a) (c.head hne) (c.getLast hne) := by
  intro c
  induction c with
  | nil => intro hne; exact absurd rfl hne
  | cons x xs ih =>
    intro hne hchain
    cases xs with
    | nil => exact Relation.ReflTransGen.refl
    | cons y rest =>
      rw [cycleChainB] at hchain
      obtain ⟨hxy, hchain'⟩ := (Bool.and_eq_true _ _).mp hchain
      have hstep : y ∈ deps x := by simpa using hxy
      have htail := ih (by simp) hchain'
      have hlast : (x :: y :: rest).getLast hne = (y :: rest).getLast (by simp) := by
        simp [List.getLast_cons]
      rw [hlast]
      exact Relation.ReflTransGen.head hstep htail

lemma isCycleB_transGen {deps : Nat → List Nat} {c : List Nat}
    (h : IsCycleB deps c = true) : ∃ i ∈ c, Depends deps i i := by
  cases c with
  | nil => simp [IsCycleB] at h
  | cons x xs =>
    rw [IsCycleB] at h
    obtain ⟨hchain, hwrap⟩ := (Bool.and_eq_true _ _).mp h
    have hne : x :: xs ≠ [] := by simp
    have hlast : (x :: xs).getLast? = some ((x :: xs).getLast hne) :=
      List.getLast?_eq_getLast_of_ne_nil hne
    rw [hlast] at hwrap
    have hwrap' : x ∈ deps ((x :: xs).getLast hne) := by simpa using hwrap
    have hrt := cycleChainB_reflTrans (x :: xs) hne hchain
    have hhead : (x :: xs).head hne = x := rfl
    rw [hhead] at hrt
    exact ⟨x, by simp, Relation.TransGen.tail' hrt hwrap'⟩

lemma build_graph_ok_of_acyclic {n : Nat} {deps : Nat → List Nat}
    (hwf : WellFormed n deps) (hac : Acyclic n deps) :
    ∃ order, build_graph n deps = Except.ok order := by
  cases h : build_graph n deps with
  | ok order => exact ⟨order, rfl⟩
  | error e =>
    obtain ⟨_, hcyc, hlt⟩ := build_graph_error_cycle hwf h
    obtain ⟨i, hi, hdep⟩ := isCycleB_transGen hcyc
    exact absurd hdep (hac i (hlt i hi))

lemma closed_reflTransGen {deps : Nat → List Nat} {S : Nat → Prop}
    (hS : ∀ x y, S x → y ∈ deps x → S y) {a b : Nat}
    (h : Relation.ReflTransGen (fun x y => y ∈ deps x) a b) (ha : S a) : S b := by
  induction h with
  | refl => exact ha
  | tail _ hr ih => exact hS _ _ ih hr

lemma not_depends_of_closed {deps : Nat → List Nat} {S : Nat → Prop}
    (hS : ∀ x y, S x → y ∈ deps x → S y) {a b : Nat}
    (ha : S a) (hb : ¬ S b) : ¬ Depends deps a b := by
  intro hdep
  obtain ⟨c, hc, hrt⟩ := Relation.TransGen.head'_iff.mp hdep
  exact hb (closed_reflTransGen hS hrt (hS _ _ ha hc))

/-- Modelled from the spec: the terminal status of a component in the
`BuildReport` (section 7). -/
inductive Status where
  | Built
  | UpToDate
  | Failed
  | SkippedDueToDependency
deriving DecidableEq

/-- A status that blocks dependents (the component is not successfully
available). -/
def statusBad : Status → Bool
  | .Failed => true
  | .SkippedDueToDependency => true
  | _ => false

/-- Scheduler state: per-component status so far, and the components whose
build step has actually been invoked. -/
structure SchedState where
  statuses : Nat → Option Status
  stepsRun : List Nat

/-- Some direct dependency of `c` has failed or was skipped. -/
def depBlocked (deps : Nat → List Nat) (st : Nat → Option Status) (c : Nat) : Bool :=
  (deps c).any (fun d =>
    match st d with
    | some s => statusBad s
    | none => false)

def setStatus (st : Nat → Option Status) (c : Nat) (s : Status) : Nat → Option Status :=
  fun x => if x = c then some s else st x

/-- The terminal status the scheduler assigns to `c`, given the statuses
recorded so far. -/
def stepStatus (deps : Nat → List Nat) (needs stepOk : Nat → Bool)
    (st : Nat → Option Status) (c : Nat) : Status :=
  if depBlocked deps st c then .SkippedDueToDependency
  else if needs c = false then .UpToDate
  else if stepOk c then .Built
  else .Failed

/-- Whether the scheduler actually invokes `c`'s build step. -/
def stepInvoked (deps : Nat → List Nat) (needs : Nat → Bool)
    (st : Nat → Option Status) (c : Nat) : Bool :=
  !(depBlocked deps st c) && needs c

/-- One scheduling step for component `c`. -/
def sstep (deps : Nat → List Nat) (needs stepOk : Nat → Bool) (c : Nat)
    (s : SchedState) : SchedState :=
  ⟨setStatus s.statuses c (stepStatus deps needs stepOk s.statuses c),
    s.stepsRun ++ (if stepInvoked deps needs s.statuses c then [c] else [])⟩

/-- Modelled from the spec: the Build Executor / Scheduler
(`execute(graph, oracle_decisions)`, section 4.5).  A single pass over the
topological order; a component whose dependency failed or was skipped is
marked `SkippedDueToDependency` and its step is not attempted; otherwise
the oracle decision `needs` selects between `UpToDate` and invoking the
build step, whose outcome `stepOk` gives `Built` or `Failed`. -/
def schedule (deps : Nat → List Nat) (needs stepOk : Nat → Bool) :
    List Nat → SchedState → SchedState
  | [], s => s
  | c :: rest, s => schedule deps needs stepOk rest (sstep deps needs stepOk c s)

def initSched : SchedState := ⟨fun _ => none, []⟩

/-- Modelled from the spec: the whole-run pipeline — graph building first;
a `CycleError` aborts the run before any component is built (section 7). -/
def runPipeline (n : Nat) (deps : Nat → List Nat) (needs stepOk : Nat → Bool) :
    Except (List Nat) SchedState :=
  match build_graph n deps with
  | .error e => .error e
  | .ok order => .ok (schedule deps needs stepOk order initSched)

/-- Modelled from the spec: the Incrementality Oracle for a native
component (section 4.4) — `needs_build` is true when the output artifact
is missing, the recorded input fingerprints are absent or differ from the
current ones, or a dependency was itself rebuilt in this run. -/
def needs_build (deps : Nat → List Nat) (fp : Nat → List Nat) (artifact : Nat → Bool)
    (recorded : Nat → Option (List Nat)) (rebuilt : List Nat) (c : Nat) : Bool :=
  !(artifact c) ||
    (match recorded c with
     | none => true
     | some fps => !(decide (fps = fp c))) ||
    (deps c).any (fun d => decide (d ∈ rebuilt))

/-- Full incremental-run state: statuses, the components rebuilt in this
run, current artifact presence, the persisted `BuildState` fingerprints,
and the oracle decision recorded for each component that was evaluated. -/
structure BuildSt where
  status : Nat → Option Status
  rebuilt : List Nat
  artifact : Nat → Bool
  recorded : Nat → Option (List Nat)
  decided : Nat → Option Bool

def setB (f : Nat → Bool) (c : Nat) (v : Bool) : Nat → Bool :=
  fun x => if x = c then v else f x

def setRec (f : Nat → Option (List Nat)) (c : Nat) (v : List Nat) : Nat → Option (List Nat) :=
  fun x => if x = c then some v else f x

def setDec (f : Nat → Option Bool) (c : Nat) (v : Bool) : Nat → Option Bool :=
  fun x => if x = c then some v else f x

/-- One incremental-build step for component `c`: evaluate blocking, then
the Incrementality Oracle, then (possibly) the build step, updating
artifact presence and the persisted fingerprints only on success. -/
def bstep (deps : Nat → List Nat) (fp : Nat → List Nat) (stepOk : Nat → Bool) (c : Nat)
    (s : BuildSt) : BuildSt :=
  if depBlocked deps s.status c then
    ⟨setStatus s.status c .SkippedDueToDependency, s.rebuilt, s.artifact, s.recorded, s.decided⟩
  else if needs_build deps fp s.artifact s.recorded s.rebuilt c = false then
    ⟨setStatus s.status c .UpToDate, s.rebuilt, s.artifact, s.recorded, setDec s.decided c false⟩
  else if stepOk c then
    ⟨setStatus s.status c .Built, s.rebuilt ++ [c], setB s.artifact c true,
      setRec s.recorded c (fp c), setDec s.decided c true⟩
  else
    ⟨setStatus s.status c .Failed, s.rebuilt, s.artifact, s.recorded, setDec s.decided c true⟩

/-- Modelled from the spec: one full `build` run over the topological
order, evaluating the Incrementality Oracle per component and updating the
persisted `BuildState` only after a successful step (sections 3, 4.4, 4.5). -/
def buildRun (deps : Nat → List Nat) (fp : Nat → List Nat) (stepOk : Nat → Bool) :
    List Nat → BuildSt → BuildSt
  | [], s => s
  | c :: rest, s => buildRun deps fp stepOk rest (bstep deps fp stepOk c s)

def initB (a : Nat → Bool) (rc : Nat → Option (List Nat)) : BuildSt :=
  ⟨fun _ => none, [], a, rc, fun _ => none⟩

lemma depends_mem_closed {deps : Nat → List Nat} {p : List Nat}
    (hcl : ∀ a ∈ p, ∀ d ∈ deps a, d ∈ p) {a b : Nat}
    (ha : a ∈ p) (hdep : Depends deps a b) : b ∈ p := by
  induction hdep with
  | single h => exact hcl a ha _ h
  | tail _ hr ih => exact hcl _ ih _ hr

lemma optBad_iff (o : Option Status) :
    (match o with | some s => statusBad s | none => false) = true ↔
      o = some Status.Failed ∨ o = some Status.SkippedDueToDependency := by
  cases o with
  | none => simp
  | some s => cases s <;> simp [statusBad]

lemma depBlocked_iff {deps : Nat → List Nat} {st : Nat → Option Status} {c : Nat} :
    depBlocked deps st c = true ↔
      ∃ d ∈ deps c, st d = some Status.Failed ∨ st d = some Status.SkippedDueToDependency := by
  rw [depBlocked, List.any_eq_true]
  constructor
  · rintro ⟨d, hd, hb⟩
    exact ⟨d, hd, (optBad_iff (st d)).mp hb⟩
  · rintro ⟨d, hd, hb⟩
    exact ⟨d, hd, (optBad_iff (st d)).mpr hb⟩

lemma setStatus_self (st : Nat → Option Status) (c : Nat) (s : Status) :
    setStatus st c s c = some s := by simp [setStatus]

lemma setStatus_other (st : Nat → Option Status) (c : Nat) (s : Status) {x : Nat}
    (h : x ≠ c) : setStatus st c s x = st x := by simp [setStatus, h]

/-- The scheduler's running invariant after the components in `p` have
been processed. -/
def SchedInv (deps : Nat → List Nat) (stepOk : Nat → Bool) (p : List Nat)
    (s : SchedState) : Prop :=
  (∀ x, (s.statuses x).isSome ↔ x ∈ p) ∧
  (∀ x, x ∈ s.stepsRun ↔ s.statuses x = some Status.Built ∨ s.statuses x = some Status.Failed) ∧
  (∀ x, s.statuses x = some Status.Built → stepOk x = true) ∧
  (∀ x, s.statuses x = some Status.Failed → stepOk x = false) ∧
  (∀ a f, s.statuses f = some Status.Failed → Depends deps a f → a ∈ p →
      s.statuses a = some Status.SkippedDueToDependency) ∧
  (∀ a, s.statuses a = some Status.SkippedDueToDependency →
      ∃ f, Depends deps a f ∧ s.statuses f = some Status.Failed) ∧
  (∀ a ∈ p, ∀ d ∈ deps a, d ∈ p)

lemma sched_inv_step (deps : Nat → List Nat) (needs stepOk : Nat → Bool)
    (p : List Nat) (c : Nat) (s : SchedState)
    (hnp : c ∉ p) (hdc : ∀ d ∈ deps c, d ∈ p)
    (hinv : SchedInv deps stepOk p s) :
    SchedInv deps stepOk (p ++ [c]) (sstep deps needs stepOk c s) := by
  obtain ⟨j1, j2, j3, j4, j5, j6, j7⟩ := hinv
  have hcnone : s.statuses c = none := by
    have := j1 c
    cases h : s.statuses c with
    | none => rfl
    | some v => rw [h] at this; exact absurd (this.mp (by simp)) hnp
  set S := stepStatus deps needs stepOk s.statuses c with hS
  have hst' : ∀ x, x ≠ c →
      (sstep deps needs stepOk c s).statuses x = s.statuses x := by
    intro x hx
    simp [sstep, setStatus_other _ _ _ hx]
  have hstc : (sstep deps needs stepOk c s).statuses c = some S := by
    simp [sstep, setStatus_self, hS]
  have j7' : ∀ x y, x ∈ p → y ∈ deps x → y ∈ p := fun x y hx hy => j7 x hx y hy
  have hdepc_self : ¬ Depends deps c c := by
    intro hdep
    obtain ⟨d, hd, hrt⟩ := Relation.TransGen.head'_iff.mp hdep
    exact hnp (closed_reflTransGen j7' hrt (hdc d hd))
  have hrun' : (sstep deps needs stepOk c s).stepsRun =
      s.stepsRun ++ (if stepInvoked deps needs s.statuses c then [c] else []) := rfl
  have hcnotrun : c ∉ s.stepsRun := by
    intro hc
    rcases (j2 c).mp hc with h | h <;> rw [hcnone] at h <;> exact absurd h (by simp)
  refine ⟨?_, ?_, ?_, ?_, ?_, ?_, ?_⟩
  · -- statuses defined exactly on p ++ [c]
    intro x
    by_cases hx : x = c
    · subst hx; rw [hstc]; simp
    · rw [hst' x hx]; rw [j1 x]; simp [hx]
  · -- stepsRun characterization
    intro x
    by_cases hx : x = c
    · subst hx
      rw [hstc, hrun']
      constructor
      · intro hmem
        rcases List.mem_append.mp hmem with h | h
        · exact absurd h hcnotrun
        · -- x ∈ the ite, so the step was invoked
          by_cases hinvk : stepInvoked deps needs s.statuses x = true
          · have hblock : depBlocked deps s.statuses x = false := by
              have := hinvk
              rw [stepInvoked, Bool.and_eq_true] at this
              simpa using this.1
            have hneeds : needs x = true := by
              have := hinvk
              rw [stepInvoked, Bool.and_eq_true] at this
              exact this.2
            rw [hS, stepStatus, hblock, if_neg (by simp), hneeds]
            simp only [Bool.true_eq_false, if_neg (by simp [hneeds] : ¬ needs x = false)]
            by_cases hok : stepOk x = true
            · rw [if_pos hok]; left; rfl
            · rw [if_neg hok]; right; rfl
          · rw [if_neg hinvk] at h; simp at h
      · intro hBF
        have hinvk : stepInvoked deps needs s.statuses x = true := by
          rw [stepInvoked, Bool.and_eq_true]
          by_cases hblock : depBlocked deps s.statuses x = true
          · exfalso
            have : S = Status.SkippedDueToDependency := by
              rw [hS, stepStatus, hblock]; simp
            rw [this] at hBF
            rcases hBF with h | h <;> simp at h
          · refine ⟨by simpa using hblock, ?_⟩
            by_cases hneeds : needs x = true
            · exact hneeds
            · exfalso
              have : S = Status.UpToDate := by
                rw [hS, stepStatus, if_neg (by simpa using hblock)]
                rw [if_pos (by simpa using hneeds)]
              rw [this] at hBF
              rcases hBF with h | h <;> simp at h
        rw [if_pos hinvk]
        simp
    · rw [hst' x hx, hrun']
      rw [← j2 x]
      constructor
      · intro hmem
        rcases List.mem_append.mp hmem with h | h
        · exact h
        · exfalso
          rcases List.mem_ite_nil_right.mp h with ⟨_, hmem'⟩
          exact hx (by simpa using hmem')
      · intro hmem
        exact List.mem_append.mpr (Or.inl hmem)
  · -- Built implies the step succeeded
    intro x hx
    by_cases hxc : x = c
    · subst hxc
      rw [hstc] at hx
      have hSB : S = Status.Built := by simpa using hx
      rw [hS, stepStatus] at hSB
      by_cases hblock : depBlocked deps s.statuses x = true
      · rw [if_pos hblock] at hSB; simp at hSB
      · rw [if_neg hblock] at hSB
        by_cases hneeds : needs x = false
        · rw [if_pos hneeds] at hSB; simp at hSB
        · rw [if_neg hneeds] at hSB
          by_cases hok : stepOk x = true
          · exact hok
          · rw [if_neg hok] at hSB; simp at hSB
    · exact j3 x (by rwa [hst' x hxc] at hx)
  · -- Failed implies the step failed
    intro x hx
    by_cases hxc : x = c
    · subst hxc
      rw [hstc] at hx
      have hSB : S = Status.Failed := by simpa using hx
      rw [hS, stepStatus] at hSB
      by_cases hblock : depBlocked deps s.statuses x = true
      · rw [if_pos hblock] at hSB; simp at hSB
      · rw [if_neg hblock] at hSB
        by_cases hneeds : needs x = false
        · rw [if_pos hneeds] at hSB; simp at hSB
        · rw [if_neg hneeds] at hSB
          by_cases hok : stepOk x = true
          · rw [if_pos hok] at hSB; simp at hSB
          · simpa using hok
    · exact j4 x (by rwa [hst' x hxc] at hx)
  · -- failed ancestors force a skip
    intro a f hf hdep ha
    by_cases hfc : f = c
    · subst hfc
      exfalso
      rcases List.mem_append.mp ha with hap | hac
      · exact hnp (depends_mem_closed j7 hap hdep)
      · have hac' : a = f := by simpa using hac
        subst hac'
        exact hdepc_self hdep
    · have hfp : s.statuses f = some Status.Failed := by rwa [hst' f hfc] at hf
      rcases List.mem_append.mp ha with hap | hac
      · have hskip := j5 a f hfp hdep hap
        have hac : a ≠ c := fun h => hnp (h ▸ hap)
        rw [hst' a hac]
        exact hskip
      · have hac' : a = c := by simpa using hac
        subst hac'
        rw [hstc]
        have hblock : depBlocked deps s.statuses a = true := by
          obtain ⟨d, hd, hrt⟩ := Relation.TransGen.head'_iff.mp hdep
          have hdp : d ∈ p := hdc d hd
          rcases (Relation.reflTransGen_iff_eq_or_transGen.mp hrt) with heq | htg
          · subst heq
            exact depBlocked_iff.mpr ⟨f, hd, Or.inl hfp⟩
          · have := j5 d f hfp htg hdp
            exact depBlocked_iff.mpr ⟨d, hd, Or.inr this⟩
        have : S = Status.SkippedDueToDependency := by
          rw [hS, stepStatus, hblock]; simp
        rw [this]
  · -- every skip is justified by a failed ancestor
    intro a ha
    by_cases hac : a = c
    · subst hac
      rw [hstc] at ha
      have hSS : S = Status.SkippedDueToDependency := by simpa using ha
      rw [hS, stepStatus] at hSS
      by_cases hblock : depBlocked deps s.statuses a = true
      · obtain ⟨d, hd, hbad⟩ := depBlocked_iff.mp hblock
        have hdnea : d ≠ a := fun h => hnp (h ▸ hdc d hd)
        rcases hbad with hF | hSk
        · exact ⟨d, Relation.TransGen.single hd, by rwa [hst' d hdnea]⟩
        · obtain ⟨f, hdf, hfF⟩ := j6 d hSk
          have hfnea : f ≠ a := by
            intro h; subst h; rw [hcnone] at hfF; exact absurd hfF (by simp)
          exact ⟨f, Relation.TransGen.head hd hdf, by rwa [hst' f hfnea]⟩
      · exfalso
        rw [if_neg hblock] at hSS
        by_cases hneeds : needs a = false
        · rw [if_pos hneeds] at hSS; simp at hSS
        · rw [if_neg hneeds] at hSS
          by_cases hok : stepOk a = true
          · rw [if_pos hok] at hSS; simp at hSS
          · rw [if_neg hok] at hSS; simp at hSS
    · obtain ⟨f, hdf, hfF⟩ := j6 a (by rwa [hst' a hac] at ha)
      have hfnec : f ≠ c := by
        intro h; subst h; rw [hcnone] at hfF; exact absurd hfF (by simp)
      exact ⟨f, hdf, by rwa [hst' f hfnec]⟩
  · -- dependency closure
    intro a ha d hd
    rcases List.mem_append.mp ha with hap | hac
    · exact List.mem_append.mpr (Or.inl (j7 a hap d hd))
    · have : a = c := by simpa using hac
      subst this
      exact List.mem_append.mpr (Or.inl (hdc d hd))

lemma schedule_inv (deps : Nat → List Nat) (needs stepOk : Nat → Bool) :
    ∀ (l p : List Nat) (s : SchedState),
      (p ++ l).Nodup →
      (∀ q c r, p ++ l = q ++ c :: r → ∀ d ∈ deps c, d ∈ q) →
      SchedInv deps stepOk p s →
      SchedInv deps stepOk (p ++ l) (schedule deps needs stepOk l s) := by
  intro l
  induction l with
  | nil => intro p s _ _ hinv; simpa [schedule] using hinv
  | cons c rest ih =>
    intro p s hnd hdec hinv
    rw [schedule]
    have hassoc : p ++ c :: rest = (p ++ [c]) ++ rest := by simp
    have hnp : c ∉ p := by
      rw [List.nodup_append] at hnd
      exact fun hc => hnd.2.2 hc (by simp)
    have hdc : ∀ d ∈ deps c, d ∈ p := hdec p c rest rfl
    have hinv' := sched_inv_step deps needs stepOk p c s hnp hdc hinv
    have h2 := ih (p ++ [c]) (sstep deps needs stepOk c s)
      (by rw [← hassoc]; exact hnd)
      (by intro q c' r h; exact hdec q c' r (hassoc.trans h))
      hinv'
    rw [hassoc]
    exact h2

lemma schedInv_init (deps : Nat → List Nat) (stepOk : Nat → Bool) :
    SchedInv deps stepOk [] initSched := by
  refine ⟨?_, ?_, ?_, ?_, ?_, ?_, ?_⟩ <;> simp [initSched]

lemma topoOrder_decomp {deps : Nat → List Nat} {order : List Nat} (ht : TopoOrder deps order) :
    ∀ (q : List Nat) (c : Nat) (r : List Nat), order = q ++ c :: r → ∀ d ∈ deps c, d ∈ q := by
  intro q c r heq d hd
  subst heq
  have hlen : q.length < (q ++ c :: r).length := by simp
  have hget : (q ++ c :: r).get ⟨q.length, hlen⟩ = c := by
    rw [List.get_eq_getElem]
    rw [List.getElem_append_right (Nat.le_refl q.length)]
    simp
  have htake : (q ++ c :: r).take q.length = q := List.take_left q (c :: r)
  have := ht.2 q.length hlen d (by rw [hget]; exact hd)
  rwa [htake] at this

/-- C4 (amended): in every scheduler execution over a dependency-respecting
order, a component whose build step was invoked and failed ends `Failed`;
every component transitively depending on a `Failed` component ends
`SkippedDueToDependency` and its build step is never invoked; and every
component with no dependency path from any failed component is still
attempted — its step runs or it is `UpToDate`, and if its own step succeeds
it ends `Built` or `UpToDate`. -/
theorem schedule_failure_isolation (deps : Nat → List Nat) (needs stepOk : Nat → Bool)
    (order : List Nat) (ht : TopoOrder deps order) (r : SchedState)
    (hr : r = schedule deps needs stepOk order initSched) :
    (∀ c ∈ order, c ∈ r.stepsRun → stepOk c = false → r.statuses c = some Status.Failed) ∧
    (∀ c f, c ∈ order → r.statuses f = some Status.Failed → Depends deps c f →
        r.statuses c = some Status.SkippedDueToDependency ∧ c ∉ r.stepsRun) ∧
    (∀ c ∈ order, (∀ f, Depends deps c f → r.statuses f ≠ some Status.Failed) →
        (c ∈ r.stepsRun ∨ r.statuses c = some Status.UpToDate) ∧
        (stepOk c = true →
          r.statuses c = some Status.Built ∨ r.statuses c = some Status.UpToDate)) := by
  have hinv := schedule_inv deps needs stepOk order [] initSched (by simpa using ht.1)
    (by intro q c rr h; exact topoOrder_decomp ht q c rr (by simpa using h))
    (schedInv_init deps stepOk)
  rw [List.nil_append, ← hr] at hinv
  obtain ⟨j1, j2, j3, j4, j5, j6, _⟩ := hinv
  refine ⟨?_, ?_, ?_⟩
  · intro c _ hrun hfail
    rcases (j2 c).mp hrun with h | h
    · rw [j3 c h] at hfail; exact absurd hfail (by simp)
    · exact h
  · intro c f hc hf hdep
    have hskip := j5 c f hf hdep hc
    refine ⟨hskip, ?_⟩
    intro hrun
    rcases (j2 c).mp hrun with h | h <;> rw [hskip] at h <;> exact absurd h (by simp)
  · intro c hc hnofail
    have hsome : (r.statuses c).isSome := (j1 c).mpr hc
    cases hst : r.statuses c with
    | none => rw [hst] at hsome; simp at hsome
    | some v =>
      cases v with
      | Built =>
        exact ⟨Or.inl ((j2 c).mpr (Or.inl hst)), fun _ => Or.inl rfl⟩
      | UpToDate =>
        exact ⟨Or.inr rfl, fun _ => Or.inr rfl⟩
      | Failed =>
        refine ⟨Or.inl ((j2 c).mpr (Or.inr hst)), ?_⟩
        intro hok
        rw [j4 c hst] at hok
        exact absurd hok (by simp)
      | SkippedDueToDependency =>
        obtain ⟨f, hdf, hfF⟩ := j6 c hst
        exact absurd hfF (hnofail f hdf)

/-- Concrete scheduler run refuting the unamended C4: components 0 and 1
both fail, component 2 depends only on 1. -/
def depsC4 : Nat → List Nat := fun i => if i = 2 then [1] else []

/-- Build-step outcomes for the C4 counterexample: only component 2's step
would succeed. -/
def stepOkC4 : Nat → Bool := fun i => decide (i = 2)

/-- The scheduler run for the C4 counterexample. -/
def schedC4 : SchedState := schedule depsC4 (fun _ => true) stepOkC4 [0, 1, 2] initSched

/-- C4 (counterexample): component 0's build step fails, component 2 has no
dependency path from 0, yet component 2 is not attempted (it ends
`SkippedDueToDependency` because of the unrelated failure of component 1).
This refutes the claim that every component with no dependency path from a
given failed component is still attempted. -/
theorem schedule_failure_isolation_counterexample :
    schedC4.statuses 0 = some Status.Failed ∧
    ¬ Depends depsC4 2 0 ∧
    schedC4.statuses 2 = some Status.SkippedDueToDependency ∧
    2 ∉ schedC4.stepsRun := by
  refine ⟨by decide, ?_, by decide, by decide⟩
  apply not_depends_of_closed (S := fun x => x = 1 ∨ x = 2)
  · intro x y hx hy
    rcases hx with h | h <;> subst h
    · simp [depsC4] at hy
    · simp [depsC4] at hy; subst hy; exact Or.inl rfl
  · exact Or.inr rfl
  · intro h
    rcases h with h | h <;> exact absurd h (by decide)

/-- Dependencies for the C4 witness scenario: B (1) depends on A (0), C (2)
is independent. -/
def depsC4w : Nat → List Nat := fun i => if i = 1 then [0] else []

/-- Step outcomes for the C4 witness scenario: only A's step fails. -/
def stepOkC4w : Nat → Bool := fun i => decide (i ≠ 0)

/-- The scheduler run for the C4 witness scenario. -/
def schedC4w : SchedState := schedule depsC4w (fun _ => true) stepOkC4w [0, 1, 2] initSched

/-- C4 (witness): in the A-fails scenario, A ends `Failed`; the theorem
applied at B yields `SkippedDueToDependency` with no step invocation; C
still ends `Built`. -/
theorem schedule_failure_isolation_witness :
    schedC4w.statuses 0 = some Status.Failed ∧
    (schedC4w.statuses 1 = some Status.SkippedDueToDependency ∧ 1 ∉ schedC4w.stepsRun) ∧
    schedC4w.statuses 2 = some Status.Built :=
  ⟨by decide,
    (schedule_failure_isolation depsC4w (fun _ => true) stepOkC4w [0, 1, 2] (by decide)
        schedC4w rfl).2.1 1 0 (by decide) (by decide)
      (Relation.TransGen.single (by decide)),
    by decide⟩

lemma setB_self (f : Nat → Bool) (c : Nat) (v : Bool) : setB f c v c = v := by simp [setB]

lemma setB_other (f : Nat → Bool) (c : Nat) (v : Bool) {x : Nat} (h : x ≠ c) :
    setB f c v x = f x := by simp [setB, h]

lemma setRec_self (f : Nat → Option (List Nat)) (c : Nat) (v : List Nat) :
    setRec f c v c = some v := by simp [setRec]

lemma setRec_other (f : Nat → Option (List Nat)) (c : Nat) (v : List Nat) {x : Nat}
    (h : x ≠ c) : setRec f c v x = f x := by simp [setRec, h]

lemma setDec_self (f : Nat → Option Bool) (c : Nat) (v : Bool) : setDec f c v c = some v := by
  simp [setDec]

lemma setDec_other (f : Nat → Option Bool) (c : Nat) (v : Bool) {x : Nat} (h : x ≠ c) :
    setDec f c v x = f x := by simp [setDec, h]

lemma needs_build_iff {deps fp : Nat → List Nat} {artifact : Nat → Bool}
    {recorded : Nat → Option (List Nat)} {rebuilt : List Nat} {c : Nat} :
    needs_build deps fp artifact recorded rebuilt c = true ↔
      (artifact c = false ∨ recorded c ≠ some (fp c) ∨ ∃ d ∈ deps c, d ∈ rebuilt) := by
  rw [needs_build]
  cases hrc : recorded c with
  | none => simp [List.any_eq_true]
  | some fps => simp [List.any_eq_true, or_assoc]

/-- The incremental run's invariant after the components in `p` have been
processed: statuses, decisions, rebuilt set, and persisted state are
mutually consistent, and each recorded oracle decision is characterized by
the initial state and the set of rebuilt direct dependencies. -/
def OracleInv (deps fp : Nat → List Nat) (stepOk : Nat → Bool) (a0 : Nat → Bool)
    (rc0 : Nat → Option (List Nat)) (p : List Nat) (s : BuildSt) : Prop :=
  (∀ x, (s.status x).isSome ↔ x ∈ p) ∧
  (∀ x, x ∉ p → s.artifact x = a0 x ∧ s.recorded x = rc0 x ∧ s.decided x = none) ∧
  (∀ x, x ∈ s.rebuilt ↔ s.status x = some Status.Built) ∧
  (∀ x, s.status x = some Status.UpToDate ↔ s.decided x = some false) ∧
  (∀ x, s.status x = some Status.Built → s.decided x = some true ∧ stepOk x = true) ∧
  (∀ x, s.status x = some Status.Failed → s.decided x = some true ∧ stepOk x = false) ∧
  (∀ x b, s.decided x = some b →
      (b = true ↔ (a0 x = false ∨ rc0 x ≠ some (fp x) ∨
        ∃ d ∈ deps x, s.status d = some Status.Built))) ∧
  (∀ x b, s.decided x = some b →
      (∃ z, Depends deps x z ∧ s.status z = some Status.Built) → b = true) ∧
  (∀ x, s.decided x = some true → stepOk x = true → s.status x = some Status.Built) ∧
  (∀ x, s.status x = some Status.Built ∨ s.status x = some Status.UpToDate →
      s.artifact x = true ∧ s.recorded x = some (fp x)) ∧
  (∀ x, s.status x = some Status.SkippedDueToDependency →
      ∃ f, Depends deps x f ∧ s.status f = some Status.Failed) ∧
  (∀ a ∈ p, ∀ d ∈ deps a, d ∈ p)

lemma oracle_inv_step (deps fp : Nat → List Nat) (stepOk : Nat → Bool) (a0 : Nat → Bool)
    (rc0 : Nat → Option (List Nat)) (p : List Nat) (c : Nat) (s : BuildSt)
    (hnp : c ∉ p) (hdc : ∀ d ∈ deps c, d ∈ p)
    (hinv : OracleInv deps fp stepOk a0 rc0 p s) :
    OracleInv deps fp stepOk a0 rc0 (p ++ [c]) (bstep deps fp stepOk c s) := by
  obtain ⟨o1, o2, o3, o4, o5, o6, o7, o8, o9, o10, o11, o12⟩ := hinv
  have hs0 : s.status c = none := by
    cases h : s.status c with
    | none => rfl
    | some v => exact absurd ((o1 c).mp (by rw [h]; simp)) hnp
  obtain ⟨ha0, hr0, hd0⟩ := o2 c hnp
  have hcnr : c ∉ s.rebuilt := by
    intro h
    have := (o3 c).mp h
    rw [hs0] at this
    exact absurd this (by simp)
  have hmem_of_status : ∀ x v, s.status x = some v → x ∈ p := by
    intro x v h
    exact (o1 x).mp (by rw [h]; simp)
  have hmem_of_dec : ∀ x b, s.decided x = some b → x ∈ p := by
    intro x b h
    by_contra hx
    rw [(o2 x hx).2.2] at h
    exact absurd h (by simp)
  have o12' : ∀ x y, x ∈ p → y ∈ deps x → y ∈ p := fun x y hx hy => o12 x hx y hy
  have hdepcc : ¬ Depends deps c c := by
    intro hdep
    obtain ⟨d, hd, hrt⟩ := Relation.TransGen.head'_iff.mp hdep
    exact hnp (closed_reflTransGen o12' hrt (hdc d hd))
  by_cases hblock : depBlocked deps s.status c = true
  · -- the component is blocked by a failed or skipped dependency
    have hs' : bstep deps fp stepOk c s =
        ⟨setStatus s.status c .SkippedDueToDependency, s.rebuilt, s.artifact, s.recorded,
          s.decided⟩ := by
      simp [bstep, hblock]
    rw [hs']
    unfold OracleInv
    dsimp only
    have hBuiltEq : ∀ x, setStatus s.status c Status.SkippedDueToDependency x =
        some Status.Built ↔ s.status x = some Status.Built := by
      intro x
      by_cases hx : x = c
      · subst hx
        rw [setStatus_self, hs0]
        simp
      · rw [setStatus_other _ _ _ hx]
    refine ⟨?_, ?_, ?_, ?_, ?_, ?_, ?_, ?_, ?_, ?_, ?_, ?_⟩
    · intro x
      by_cases hx : x = c
      · subst hx; rw [setStatus_self]; simp
      · rw [setStatus_other _ _ _ hx, o1 x]; simp [hx]
    · intro x hx
      have hxp : x ∉ p := fun h => hx (List.mem_append.mpr (Or.inl h))
      have hxc : x ≠ c := fun h => hx (by simp [h])
      exact ⟨(o2 x hxp).1, (o2 x hxp).2.1, (o2 x hxp).2.2⟩
    · intro x
      rw [o3 x, hBuiltEq x]
    · intro x
      by_cases hx : x = c
      · subst hx
        rw [setStatus_self, hd0]
        simp
      · rw [setStatus_other _ _ _ hx]; exact o4 x
    · intro x hx
      by_cases hxc : x = c
      · subst hxc; rw [setStatus_self] at hx; exact absurd hx (by simp)
      · rw [setStatus_other _ _ _ hxc] at hx; exact o5 x hx
    · intro x hx
      by_cases hxc : x = c
      · subst hxc; rw [setStatus_self] at hx; exact absurd hx (by simp)
      · rw [setStatus_other _ _ _ hxc] at hx; exact o6 x hx
    · intro x b hb
      rw [o7 x b hb]
      constructor
      · rintro (h | h | ⟨d, hd, hdb⟩)
        · exact Or.inl h
        · exact Or.inr (Or.inl h)
        · exact Or.inr (Or.inr ⟨d, hd, (hBuiltEq d).mpr hdb⟩)
      · rintro (h | h | ⟨d, hd, hdb⟩)
        · exact Or.inl h
        · exact Or.inr (Or.inl h)
        · exact Or.inr (Or.inr ⟨d, hd, (hBuiltEq d).mp hdb⟩)
    · intro x b hb ⟨z, hz, hzB⟩
      exact o8 x b hb ⟨z, hz, (hBuiltEq z).mp hzB⟩
    · intro x hx hok
      by_cases hxc : x = c
      · subst hxc; rw [hd0] at hx; exact absurd hx (by simp)
      · rw [setStatus_other _ _ _ hxc]; exact o9 x hx hok
    · intro x hx
      by_cases hxc : x = c
      · subst hxc; rw [setStatus_self] at hx
        rcases hx with h | h <;> exact absurd h (by simp)
      · rw [setStatus_other _ _ _ hxc] at hx; exact o10 x hx
    · intro x hx
      by_cases hxc : x = c
      · subst hxc
        obtain ⟨d, hd, hbad⟩ := depBlocked_iff.mp hblock
        have hdp : d ∈ p := hdc d hd
        have hdnec : d ≠ x := fun h => hnp (h ▸ hdp)
        rcases hbad with hF | hSk
        · exact ⟨d, Relation.TransGen.single hd,
            by rw [setStatus_other _ _ _ hdnec]; exact hF⟩
        · obtain ⟨f, hdf, hfF⟩ := o11 d hSk
          have hfnec : f ≠ x := fun h => hnp (h ▸ hmem_of_status f _ hfF)
          exact ⟨f, Relation.TransGen.head hd hdf,
            by rw [setStatus_other _ _ _ hfnec]; exact hfF⟩
      · rw [setStatus_other _ _ _ hxc] at hx
        obtain ⟨f, hdf, hfF⟩ := o11 x hx
        have hfnec : f ≠ c := fun h => hnp (h ▸ hmem_of_status f _ hfF)
        exact ⟨f, hdf, by rw [setStatus_other _ _ _ hfnec]; exact hfF⟩
    · intro a ha d hd
      rcases List.mem_append.mp ha with h | h
      · exact List.mem_append.mpr (Or.inl (o12 a h d hd))
      · have : a = c := by simpa using h
        subst this
        exact List.mem_append.mpr (Or.inl (hdc d hd))
  · -- the component is not blocked: evaluate the oracle
    have hblock' : depBlocked deps s.status c = false := by simpa using hblock
    by_cases hnb : needs_build deps fp s.artifact s.recorded s.rebuilt c = false
    · -- up to date: no work, no state change
      have hs' : bstep deps fp stepOk c s =
          ⟨setStatus s.status c .UpToDate, s.rebuilt, s.artifact, s.recorded,
            setDec s.decided c false⟩ := by
        simp [bstep, hblock', hnb]
      rw [hs']
      unfold OracleInv
      dsimp only
      have hnb' : ¬ (s.artifact c = false ∨ s.recorded c ≠ some (fp c) ∨
          ∃ d ∈ deps c, d ∈ s.rebuilt) := by
        intro h
        rw [needs_build_iff.mpr h] at hnb
        exact absurd hnb (by simp)
      push_neg at hnb'
      obtain ⟨hart, hrec, hnr⟩ := hnb'
      have hartT : s.artifact c = true := by
        cases h : s.artifact c with
        | false => exact absurd h hart
        | true => rfl
      have hBuiltEq : ∀ x, setStatus s.status c Status.UpToDate x =
          some Status.Built ↔ s.status x = some Status.Built := by
        intro x
        by_cases hx : x = c
        · subst hx; rw [setStatus_self, hs0]; simp
        · rw [setStatus_other _ _ _ hx]
      refine ⟨?_, ?_, ?_, ?_, ?_, ?_, ?_, ?_, ?_, ?_, ?_, ?_⟩
      · intro x
        by_cases hx : x = c
        · subst hx; rw [setStatus_self]; simp
        · rw [setStatus_other _ _ _ hx, o1 x]; simp [hx]
      · intro x hx
        have hxp : x ∉ p := fun h => hx (List.mem_append.mpr (Or.inl h))
        have hxc : x ≠ c := fun h => hx (by simp [h])
        exact ⟨(o2 x hxp).1, (o2 x hxp).2.1,
          by rw [setDec_other _ _ _ hxc]; exact (o2 x hxp).2.2⟩
      · intro x
        rw [o3 x, hBuiltEq x]
      · intro x
        by_cases hx : x = c
        · subst hx; rw [setStatus_self, setDec_self]; simp
        · rw [setStatus_other _ _ _ hx, setDec_other _ _ _ hx]; exact o4 x
      · intro x hx
        by_cases hxc : x = c
        · subst hxc; rw [setStatus_self] at hx; exact absurd hx (by simp)
        · rw [setStatus_other _ _ _ hxc] at hx
          rw [setDec_other _ _ _ hxc]
          exact o5 x hx
      · intro x hx
        by_cases hxc : x = c
        · subst hxc; rw [setStatus_self] at hx; exact absurd hx (by simp)
        · rw [setStatus_other _ _ _ hxc] at hx
          rw [setDec_other _ _ _ hxc]
          exact o6 x hx
      · intro x b hb
        by_cases hxc : x = c
        · subst hxc
          rw [setDec_self] at hb
          have hbf : b = false := by simpa using hb.symm
          subst hbf
          simp only [Bool.false_eq_true, false_iff]
          push_neg
          refine ⟨?_, by rw [← hr0]; exact hrec, ?_⟩
          · rw [← ha0, hartT]; simp
          · intro d hd
            rw [(setStatus_other s.status x Status.UpToDate (fun h => hnp (by rw [← h]; exact hdc d hd)) :
              setStatus s.status x Status.UpToDate d = s.status d)]
            intro hdB
            exact absurd ((o3 d).mpr hdB) (hnr d hd)
        · rw [setDec_other _ _ _ hxc] at hb
          rw [o7 x b hb]
          constructor
          · rintro (h | h | ⟨d, hd, hdb⟩)
            · exact Or.inl h
            · exact Or.inr (Or.inl h)
            · exact Or.inr (Or.inr ⟨d, hd, (hBuiltEq d).mpr hdb⟩)
          · rintro (h | h | ⟨d, hd, hdb⟩)
            · exact Or.inl h
            · exact Or.inr (Or.inl h)
            · exact Or.inr (Or.inr ⟨d, hd, (hBuiltEq d).mp hdb⟩)
      · intro x b hb ⟨z, hz, hzB⟩
        by_cases hxc : x = c
        · subst hxc
          rw [setDec_self] at hb
          have hbf : b = false := by simpa using hb.symm
          subst hbf
          exfalso
          have hzB' : s.status z = some Status.Built := (hBuiltEq z).mp hzB
          obtain ⟨d, hd, hrt⟩ := Relation.TransGen.head'_iff.mp hz
          have hdp : d ∈ p := hdc d hd
          rcases Relation.reflTransGen_iff_eq_or_transGen.mp hrt with heq | htg
          · rw [heq] at hzB'
            exact absurd ((o3 d).mpr hzB') (hnr d hd)
          · cases hds : s.status d with
            | none => exact absurd ((o1 d).mpr hdp) (by rw [hds]; simp)
            | some v =>
              cases v with
              | Built => exact absurd ((o3 d).mpr hds) (hnr d hd)
              | UpToDate =>
                have hdec := (o4 d).mp hds
                have := o8 d false hdec ⟨z, htg, hzB'⟩
                exact absurd this (by simp)
              | Failed =>
                have hbl : depBlocked deps s.status x = true :=
                  depBlocked_iff.mpr ⟨d, hd, Or.inl hds⟩
                rw [hbl] at hblock'
                exact absurd hblock' (by simp)
              | SkippedDueToDependency =>
                have hbl : depBlocked deps s.status x = true :=
                  depBlocked_iff.mpr ⟨d, hd, Or.inr hds⟩
                rw [hbl] at hblock'
                exact absurd hblock' (by simp)
        · rw [setDec_other _ _ _ hxc] at hb
          exact o8 x b hb ⟨z, hz, (hBuiltEq z).mp hzB⟩
      · intro x hx hok
        by_cases hxc : x = c
        · subst hxc
          rw [setDec_self] at hx
          exact absurd hx (by simp)
        · rw [setDec_other _ _ _ hxc] at hx
          rw [setStatus_other _ _ _ hxc]
          exact o9 x hx hok
      · intro x hx
        by_cases hxc : x = c
        · subst hxc
          exact ⟨hartT, hrec⟩
        · rw [setStatus_other _ _ _ hxc] at hx
          exact o10 x hx
      · intro x hx
        by_cases hxc : x = c
        · subst hxc; rw [setStatus_self] at hx; exact absurd hx (by simp)
        · rw [setStatus_other _ _ _ hxc] at hx
          obtain ⟨f, hdf, hfF⟩ := o11 x hx
          have hfnec : f ≠ c := fun h => hnp (h ▸ hmem_of_status f _ hfF)
          exact ⟨f, hdf, by rw [setStatus_other _ _ _ hfnec]; exact hfF⟩
      · intro a ha d hd
        rcases List.mem_append.mp ha with h | h
        · exact List.mem_append.mpr (Or.inl (o12 a h d hd))
        · have : a = c := by simpa using h
          subst this
          exact List.mem_append.mpr (Or.inl (hdc d hd))
    · -- the oracle says build
      have hnbT : needs_build deps fp s.artifact s.recorded s.rebuilt c = true := by
        cases h : needs_build deps fp s.artifact s.recorded s.rebuilt c with
        | false => exact absurd h hnb
        | true => rfl
      obtain hself := needs_build_iff.mp hnbT
      by_cases hok : stepOk c = true
      · -- build step succeeds
        have hs' : bstep deps fp stepOk c s =
            ⟨setStatus s.status c .Built, s.rebuilt ++ [c], setB s.artifact c true,
              setRec s.recorded c (fp c), setDec s.decided c true⟩ := by
          simp [bstep, hblock', hnb, hok]
        rw [hs']
        unfold OracleInv
        dsimp only
        have hBuiltEqP : ∀ x, x ∈ p →
            (setStatus s.status c Status.Built x = some Status.Built ↔
              s.status x = some Status.Built) := by
          intro x hx
          rw [setStatus_other _ _ _ (fun h => hnp (by rw [← h]; exact hx))]
        refine ⟨?_, ?_, ?_, ?_, ?_, ?_, ?_, ?_, ?_, ?_, ?_, ?_⟩
        · intro x
          by_cases hx : x = c
          · subst hx; rw [setStatus_self]; simp
          · rw [setStatus_other _ _ _ hx, o1 x]; simp [hx]
        · intro x hx
          have hxp : x ∉ p := fun h => hx (List.mem_append.mpr (Or.inl h))
          have hxc : x ≠ c := fun h => hx (by simp [h])
          exact ⟨by rw [setB_other _ _ _ hxc]; exact (o2 x hxp).1,
            by rw [setRec_other _ _ _ hxc]; exact (o2 x hxp).2.1,
            by rw [setDec_other _ _ _ hxc]; exact (o2 x hxp).2.2⟩
        · intro x
          by_cases hx : x = c
          · subst hx
            rw [setStatus_self]
            simp [hcnr]
          · rw [setStatus_other _ _ _ hx]
            rw [← o3 x]
            constructor
            · intro hm
              rcases List.mem_append.mp hm with h | h
              · exact h
              · exact absurd (by simpa using h) hx
            · intro hm; exact List.mem_append.mpr (Or.inl hm)
        · intro x
          by_cases hx : x = c
          · subst hx
            rw [setStatus_self, setDec_self]
            simp
          · rw [setStatus_other _ _ _ hx, setDec_other _ _ _ hx]; exact o4 x
        · intro x hx
          by_cases hxc : x = c
          · subst hxc
            rw [setDec_self]
            exact ⟨rfl, hok⟩
          · rw [setStatus_other _ _ _ hxc] at hx
            rw [setDec_other _ _ _ hxc]
            exact o5 x hx
        · intro x hx
          by_cases hxc : x = c
          · subst hxc; rw [setStatus_self] at hx; exact absurd hx (by simp)
          · rw [setStatus_other _ _ _ hxc] at hx
            rw [setDec_other _ _ _ hxc]
            exact o6 x hx
        · intro x b hb
          by_cases hxc : x = c
          · subst hxc
            rw [setDec_self] at hb
            have hbt : b = true := by simpa using hb.symm
            subst hbt
            simp only [true_iff]
            rcases hself with h | h | ⟨d, hd, hdr⟩
            · exact Or.inl (by rw [← ha0]; exact h)
            · exact Or.inr (Or.inl (by rw [← hr0]; exact h))
            · refine Or.inr (Or.inr ⟨d, hd, ?_⟩)
              rw [setStatus_other _ _ _ (fun h => hnp (by rw [← h]; exact hdc d hd))]
              exact (o3 d).mp hdr
          · rw [setDec_other _ _ _ hxc] at hb
            have hxp : x ∈ p := hmem_of_dec x b hb
            rw [o7 x b hb]
            constructor
            · rintro (h | h | ⟨d, hd, hdb⟩)
              · exact Or.inl h
              · exact Or.inr (Or.inl h)
              · exact Or.inr (Or.inr ⟨d, hd, (hBuiltEqP d (o12 x hxp d hd)).mpr hdb⟩)
            · rintro (h | h | ⟨d, hd, hdb⟩)
              · exact Or.inl h
              · exact Or.inr (Or.inl h)
              · exact Or.inr (Or.inr ⟨d, hd, (hBuiltEqP d (o12 x hxp d hd)).mp hdb⟩)
        · intro x b hb ⟨z, hz, hzB⟩
          by_cases hxc : x = c
          · subst hxc
            rw [setDec_self] at hb
            simpa using hb.symm
          · rw [setDec_other _ _ _ hxc] at hb
            have hxp : x ∈ p := hmem_of_dec x b hb
            by_cases hzc : z = c
            · subst hzc
              exact absurd (depends_mem_closed o12 hxp hz) hnp
            · rw [setStatus_other _ _ _ hzc] at hzB
              exact o8 x b hb ⟨z, hz, hzB⟩
        · intro x hx hok2
          by_cases hxc : x = c
          · subst hxc; rw [setStatus_self]
          · rw [setDec_other _ _ _ hxc] at hx
            rw [setStatus_other _ _ _ hxc]
            exact o9 x hx hok2
        · intro x hx
          by_cases hxc : x = c
          · subst hxc
            rw [setB_self, setRec_self]
            exact ⟨rfl, rfl⟩
          · rw [setStatus_other _ _ _ hxc] at hx
            rw [setB_other _ _ _ hxc, setRec_other _ _ _ hxc]
            exact o10 x hx
        · intro x hx
          by_cases hxc : x = c
          · subst hxc; rw [setStatus_self] at hx; exact absurd hx (by simp)
          · rw [setStatus_other _ _ _ hxc] at hx
            obtain ⟨f, hdf, hfF⟩ := o11 x hx
            have hfnec : f ≠ c := fun h => hnp (h ▸ hmem_of_status f _ hfF)
            exact ⟨f, hdf, by rw [setStatus_other _ _ _ hfnec]; exact hfF⟩
        · intro a ha d hd
          rcases List.mem_append.mp ha with h | h
          · exact List.mem_append.mpr (Or.inl (o12 a h d hd))
          · have : a = c := by simpa using h
            subst this
            exact List.mem_append.mpr (Or.inl (hdc d hd))
      · -- build step fails
        have hokF : stepOk c = false := by
          cases h : stepOk c with
          | true => exact absurd h hok
          | false => rfl
        have hs' : bstep deps fp stepOk c s =
            ⟨setStatus s.status c .Failed, s.rebuilt, s.artifact, s.recorded,
              setDec s.decided c true⟩ := by
          simp [bstep, hblock', hnb, hokF]
        rw [hs']
        unfold OracleInv
        dsimp only
        have hBuiltEq : ∀ x, setStatus s.status c Status.Failed x =
            some Status.Built ↔ s.status x = some Status.Built := by
          intro x
          by_cases hx : x = c
          · subst hx; rw [setStatus_self, hs0]; simp
          · rw [setStatus_other _ _ _ hx]
        refine ⟨?_, ?_, ?_, ?_, ?_, ?_, ?_, ?_, ?_, ?_, ?_, ?_⟩
        · intro x
          by_cases hx : x = c
          · subst hx; rw [setStatus_self]; simp
          · rw [setStatus_other _ _ _ hx, o1 x]; simp [hx]
        · intro x hx
          have hxp : x ∉ p := fun h => hx (List.mem_append.mpr (Or.inl h))
          have hxc : x ≠ c := fun h => hx (by simp [h])
          exact ⟨(o2 x hxp).1, (o2 x hxp).2.1,
            by rw [setDec_other _ _ _ hxc]; exact (o2 x hxp).2.2⟩
        · intro x
          rw [o3 x, hBuiltEq x]
        · intro x
          by_cases hx : x = c
          · subst hx; rw [setStatus_self, setDec_self]; simp
          · rw [setStatus_other _ _ _ hx, setDec_other _ _ _ hx]; exact o4 x
        · intro x hx
          by_cases hxc : x = c
          · subst hxc; rw [setStatus_self] at hx; exact absurd hx (by simp)
          · rw [setStatus_other _ _ _ hxc] at hx
            rw [setDec_other _ _ _ hxc]
            exact o5 x hx
        · intro x hx
          by_cases hxc : x = c
          · subst hxc
            rw [setDec_self]
            exact ⟨rfl, hokF⟩
          · rw [setStatus_other _ _ _ hxc] at hx
            rw [setDec_other _ _ _ hxc]
            exact o6 x hx
        · intro x b hb
          by_cases hxc : x = c
          · subst hxc
            rw [setDec_self] at hb
            have hbt : b = true := by simpa using hb.symm
            subst hbt
            simp only [true_iff]
            rcases hself with h | h | ⟨d, hd, hdr⟩
            · exact Or.inl (by rw [← ha0]; exact h)
            · exact Or.inr (Or.inl (by rw [← hr0]; exact h))
            · refine Or.inr (Or.inr ⟨d, hd, ?_⟩)
              rw [(hBuiltEq d)]
              exact (o3 d).mp hdr
          · rw [setDec_other _ _ _ hxc] at hb
            rw [o7 x b hb]
            constructor
            · rintro (h | h | ⟨d, hd, hdb⟩)
              · exact Or.inl h
              · exact Or.inr (Or.inl h)
              · exact Or.inr (Or.inr ⟨d, hd, (hBuiltEq d).mpr hdb⟩)
            · rintro (h | h | ⟨d, hd, hdb⟩)
              · exact Or.inl h
              · exact Or.inr (Or.inl h)
              · exact Or.inr (Or.inr ⟨d, hd, (hBuiltEq d).mp hdb⟩)
        · intro x b hb ⟨z, hz, hzB⟩
          by_cases hxc : x = c
          · subst hxc
            rw [setDec_self] at hb
            simpa using hb.symm
          · rw [setDec_other _ _ _ hxc] at hb
            exact o8 x b hb ⟨z, hz, (hBuiltEq z).mp hzB⟩
        · intro x hx hokx
          by_cases hxc : x = c
          · subst hxc
            rw [hokx] at hokF
            exact absurd hokF (by simp)
          · rw [setDec_other _ _ _ hxc] at hx
            rw [setStatus_other _ _ _ hxc]
            exact o9 x hx hokx
        · intro x hx
          by_cases hxc : x = c
          · subst hxc; rw [setStatus_self] at hx
            rcases hx with h | h <;> exact absurd h (by simp)
          · rw [setStatus_other _ _ _ hxc] at hx
            exact o10 x hx
        · intro x hx
          by_cases hxc : x = c
          · subst hxc; rw [setStatus_self] at hx; exact absurd hx (by simp)
          · rw [setStatus_other _ _ _ hxc] at hx
            obtain ⟨f, hdf, hfF⟩ := o11 x hx
            have hfnec : f ≠ c := fun h => hnp (h ▸ hmem_of_status f _ hfF)
            exact ⟨f, hdf, by rw [setStatus_other _ _ _ hfnec]; exact hfF⟩
        · intro a ha d hd
          rcases List.mem_append.mp ha with h | h
          · exact List.mem_append.mpr (Or.inl (o12 a h d hd))
          · have : a = c := by simpa using h
            subst this
            exact List.mem_append.mpr (Or.inl (hdc d hd))

lemma oracle_inv_run (deps fp : Nat → List Nat) (stepOk : Nat → Bool) (a0 : Nat → Bool)
    (rc0 : Nat → Option (List Nat)) :
    ∀ (l p : List Nat) (s : BuildSt),
      (p ++ l).Nodup →
      (∀ q c r, p ++ l = q ++ c :: r → ∀ d ∈ deps c, d ∈ q) →
      OracleInv deps fp stepOk a0 rc0 p s →
      OracleInv deps fp stepOk a0 rc0 (p ++ l) (buildRun deps fp stepOk l s) := by
  intro l
  induction l with
  | nil => intro p s _ _ hinv; simpa [buildRun] using hinv
  | cons c rest ih =>
    intro p s hnd hdec hinv
    rw [buildRun]
    have hassoc : p ++ c :: rest = (p ++ [c]) ++ rest := by simp
    have hnp : c ∉ p := by
      rw [List.nodup_append] at hnd
      exact fun hc => hnd.2.2 hc (by simp)
    have hdc : ∀ d ∈ deps c, d ∈ p := hdec p c rest rfl
    have hinv' := oracle_inv_step deps fp stepOk a0 rc0 p c s hnp hdc hinv
    have h2 := ih (p ++ [c]) (bstep deps fp stepOk c s)
      (by rw [← hassoc]; exact hnd)
      (by intro q c' r h; exact hdec q c' r (hassoc.trans h))
      hinv'
    rw [hassoc]
    exact h2

lemma oracleInv_init (deps fp : Nat → List Nat) (stepOk : Nat → Bool) (a0 : Nat → Bool)
    (rc0 : Nat → Option (List Nat)) :
    OracleInv deps fp stepOk a0 rc0 [] (initB a0 rc0) := by
  refine ⟨?_, ?_, ?_, ?_, ?_, ?_, ?_, ?_, ?_, ?_, ?_, ?_⟩ <;> simp [initB]

/-- C3: for a native component with a recorded build state whose oracle
decision was evaluated during the run, `needs_build` is true exactly when
the output artifact was missing, the recorded input fingerprints differ
from the current ones, or some dependency component — reachable through
`link_libs` — was itself rebuilt in the same run; in particular a component
whose direct dependency was rebuilt is itself rebuilt when its own step
succeeds. -/
theorem needs_build_decision_spec (deps fp : Nat → List Nat) (stepOk : Nat → Bool)
    (order : List Nat) (a0 : Nat → Bool) (rc0 : Nat → Option (List Nat))
    (ht : TopoOrder deps order) (c : Nat) (fps0 : List Nat) (hrc : rc0 c = some fps0)
    (r : BuildSt) (hr : r = buildRun deps fp stepOk order (initB a0 rc0))
    (dec : Bool) (hdec : r.decided c = some dec) :
    (dec = true ↔
      (a0 c = false ∨ fps0 ≠ fp c ∨ ∃ z, Depends deps c z ∧ z ∈ r.rebuilt)) ∧
    (∀ A ∈ deps c, A ∈ r.rebuilt →
      (dec = true ∧ (stepOk c = true → r.status c = some Status.Built))) := by
  have hinv := oracle_inv_run deps fp stepOk a0 rc0 order [] (initB a0 rc0)
    (by simpa using ht.1)
    (by intro q cc rr h; exact topoOrder_decomp ht q cc rr (by simpa using h))
    (oracleInv_init deps fp stepOk a0 rc0)
  rw [List.nil_append, ← hr] at hinv
  obtain ⟨o1, o2, o3, o4, o5, o6, o7, o8, o9, o10, o11, o12⟩ := hinv
  constructor
  · constructor
    · intro hdt
      rcases (o7 c dec hdec).mp hdt with h | h | ⟨d, hd, hB⟩
      · exact Or.inl h
      · rw [hrc] at h
        refine Or.inr (Or.inl ?_)
        intro he
        exact h (by rw [he])
      · exact Or.inr (Or.inr ⟨d, Relation.TransGen.single hd, (o3 d).mpr hB⟩)
    · rintro (h | h | ⟨z, hz, hzr⟩)
      · exact (o7 c dec hdec).mpr (Or.inl h)
      · refine (o7 c dec hdec).mpr (Or.inr (Or.inl ?_))
        rw [hrc]
        simp [h]
      · exact o8 c dec hdec ⟨z, hz, (o3 z).mp hzr⟩
  · intro A hA hAr
    have hdt : dec = true :=
      (o7 c dec hdec).mpr (Or.inr (Or.inr ⟨A, hA, (o3 A).mp hAr⟩))
    refine ⟨hdt, fun hok => o9 c (by rw [← hdt]; exact hdec) hok⟩

/-- Dependencies for the C3 witness: the executable (1) links the library
(0). -/
def depsC3w : Nat → List Nat := fun i => if i = 1 then [0] else []

/-- Recorded fingerprints for the C3 witness: the library's recorded
fingerprint differs from the current one, the executable's matches. -/
def rc0C3w : Nat → Option (List Nat) := fun i => if i = 0 then some [4] else some [5]

/-- Current input fingerprints for the C3 witness. -/
def fpC3w : Nat → List Nat := fun _ => [5]

/-- The C3 witness run: library 0 is rebuilt (source changed), executable 1
has unchanged sources but links 0. -/
def runC3w : BuildSt :=
  buildRun depsC3w fpC3w (fun _ => true) [0, 1] (initB (fun _ => true) rc0C3w)

/-- C3 (witness): in the concrete run, the library is rebuilt and the
theorem applied to the executable shows its oracle decision is true and it
is rebuilt even though its own sources are unchanged. -/
theorem needs_build_decision_spec_witness :
    runC3w.status 0 = some Status.Built ∧
    (true = true ∧ ((fun _ => true) 1 = true → runC3w.status 1 = some Status.Built)) :=
  ⟨by decide,
    (needs_build_decision_spec depsC3w fpC3w (fun _ => true) [0, 1] (fun _ => true) rc0C3w
        (by decide) 1 [5] (by decide) runC3w rfl true (by decide)).2 0 (by decide)
      (by decide)⟩

/-- Invariant of a `build` run started from a state in which every
component of interest already has its artifact and matching fingerprints:
everything processed so far is `UpToDate` and nothing has been rebuilt. -/
def Run2Inv (a1 : Nat → Bool) (rc1 : Nat → Option (List Nat)) (p : List Nat)
    (s : BuildSt) : Prop :=
  (∀ x, (s.status x).isSome ↔ x ∈ p) ∧
  (∀ x ∈ p, s.status x = some Status.UpToDate) ∧
  s.rebuilt = [] ∧
  (∀ x, s.artifact x = a1 x) ∧
  (∀ x, s.recorded x = rc1 x)

lemma run2_inv_step (deps fp : Nat → List Nat) (stepOk : Nat → Bool)
    (a1 : Nat → Bool) (rc1 : Nat → Option (List Nat)) (p : List Nat) (c : Nat) (s : BuildSt)
    (hdc : ∀ d ∈ deps c, d ∈ p)
    (hgood : a1 c = true ∧ rc1 c = some (fp c))
    (hinv : Run2Inv a1 rc1 p s) :
    Run2Inv a1 rc1 (p ++ [c]) (bstep deps fp stepOk c s) := by
  obtain ⟨i1, i2, i3, i4, i5⟩ := hinv
  have hbf : depBlocked deps s.status c = false := by
    cases h : depBlocked deps s.status c with
    | false => rfl
    | true =>
      obtain ⟨d, hd, hbad⟩ := depBlocked_iff.mp h
      have := i2 d (hdc d hd)
      rcases hbad with hb | hb <;> rw [this] at hb <;> exact absurd hb (by simp)
  have hnb : needs_build deps fp s.artifact s.recorded s.rebuilt c = false := by
    rw [needs_build, i4 c, hgood.1, i5 c, hgood.2, i3]
    simp
  have hs' : bstep deps fp stepOk c s =
      ⟨setStatus s.status c .UpToDate, s.rebuilt, s.artifact, s.recorded,
        setDec s.decided c false⟩ := by
    simp [bstep, hbf, hnb]
  rw [hs']
  unfold Run2Inv
  dsimp only
  refine ⟨?_, ?_, i3, i4, i5⟩
  · intro x
    by_cases hx : x = c
    · subst hx; rw [setStatus_self]; simp
    · rw [setStatus_other _ _ _ hx, i1 x]; simp [hx]
  · intro x hx
    by_cases hxc : x = c
    · subst hxc; rw [setStatus_self]
    · rcases List.mem_append.mp hx with h | h
      · rw [setStatus_other _ _ _ hxc]; exact i2 x h
      · exact absurd (by simpa using h) hxc

lemma run2_inv_run (deps fp : Nat → List Nat) (stepOk : Nat → Bool)
    (a1 : Nat → Bool) (rc1 : Nat → Option (List Nat)) (order : List Nat)
    (hgood : ∀ x ∈ order, a1 x = true ∧ rc1 x = some (fp x)) :
    ∀ (l p : List Nat) (s : BuildSt), order = p ++ l →
      (∀ q c r, p ++ l = q ++ c :: r → ∀ d ∈ deps c, d ∈ q) →
      Run2Inv a1 rc1 p s →
      Run2Inv a1 rc1 (p ++ l) (buildRun deps fp stepOk l s) := by
  intro l
  induction l with
  | nil => intro p s _ _ hinv; simpa [buildRun] using hinv
  | cons c rest ih =>
    intro p s horder hdec hinv
    rw [buildRun]
    have hassoc : p ++ c :: rest = (p ++ [c]) ++ rest := by simp
    have hdc : ∀ d ∈ deps c, d ∈ p := hdec p c rest rfl
    have hcin : c ∈ order := by rw [horder]; simp
    have hinv' := run2_inv_step deps fp stepOk a1 rc1 p c s hdc (hgood c hcin) hinv
    have h2 := ih (p ++ [c]) (bstep deps fp stepOk c s)
      (by rw [horder]; exact hassoc)
      (by intro q c' r h; exact hdec q c' r (hassoc.trans h))
      hinv'
    rw [hassoc]
    exact h2

/-- C5 (amended): running `build` twice in a row with no change to any
source input between the runs, provided every component's build step
succeeds, results in every native component reporting `UpToDate` on the
second run, and the second run rebuilds nothing. -/
theorem build_idempotent (deps fp : Nat → List Nat) (stepOk : Nat → Bool)
    (order : List Nat) (a0 : Nat → Bool) (rc0 : Nat → Option (List Nat))
    (ht : TopoOrder deps order) (hok : ∀ c, stepOk c = true) (r1 r2 : BuildSt)
    (h1 : r1 = buildRun deps fp stepOk order (initB a0 rc0))
    (h2 : r2 = buildRun deps fp stepOk order (initB r1.artifact r1.recorded)) :
    (∀ c ∈ order, r2.status c = some Status.UpToDate) ∧ r2.rebuilt = [] := by
  have hinv1 := oracle_inv_run deps fp stepOk a0 rc0 order [] (initB a0 rc0)
    (by simpa using ht.1)
    (by intro q cc rr h; exact topoOrder_decomp ht q cc rr (by simpa using h))
    (oracleInv_init deps fp stepOk a0 rc0)
  rw [List.nil_append, ← h1] at hinv1
  obtain ⟨o1, _, _, _, _, o6, _, _, _, o10, o11, _⟩ := hinv1
  have hgood : ∀ x ∈ order, r1.artifact x = true ∧ r1.recorded x = some (fp x) := by
    intro x hx
    have hsome : (r1.status x).isSome := (o1 x).mpr hx
    cases hst : r1.status x with
    | none => rw [hst] at hsome; simp at hsome
    | some v =>
      cases v with
      | Built => exact o10 x (Or.inl hst)
      | UpToDate => exact o10 x (Or.inr hst)
      | Failed =>
        have := (o6 x hst).2
        rw [hok x] at this
        exact absurd this (by simp)
      | SkippedDueToDependency =>
        obtain ⟨f, _, hfF⟩ := o11 x hst
        have := (o6 f hfF).2
        rw [hok f] at this
        exact absurd this (by simp)
  have hinv2 := run2_inv_run deps fp stepOk r1.artifact r1.recorded order hgood
    order [] (initB r1.artifact r1.recorded) (by simp)
    (by intro q cc rr h; exact topoOrder_decomp ht q cc rr (by simpa using h))
    (by refine ⟨?_, ?_, rfl, fun _ => rfl, fun _ => rfl⟩ <;> simp [initB])
  rw [List.nil_append, ← h2] at hinv2
  exact ⟨hinv2.2.1, hinv2.2.2.1⟩

/-- The first run of the C5 counterexample: one component whose build step
always fails and whose artifact is missing. -/
def runC5c1 : BuildSt :=
  buildRun (fun _ => []) (fun _ => [0]) (fun _ => false) [0]
    (initB (fun _ => false) (fun _ => none))

/-- The second run of the C5 counterexample, starting from the state the
first run left behind, with no source change in between. -/
def runC5c2 : BuildSt :=
  buildRun (fun _ => []) (fun _ => [0]) (fun _ => false) [0]
    (initB runC5c1.artifact runC5c1.recorded)

/-- C5 (counterexample): with a component whose build step fails, running
`build` twice with no source change leaves the component `Failed` — not
`UpToDate` — on the second run, refuting the unconditional claim. -/
theorem build_idempotent_counterexample :
    runC5c2.status 0 = some Status.Failed ∧
      runC5c2.status 0 ≠ some Status.UpToDate := by
  refine ⟨by decide, by decide⟩

/-- First run of the C5 witness scenario (`hello` library and `main`
executable, nothing built yet). -/
def runC5w1 : BuildSt :=
  buildRun depsC3w fpC3w (fun _ => true) [0, 1] (initB (fun _ => false) (fun _ => none))

/-- Second run of the C5 witness scenario, no source change in between. -/
def runC5w2 : BuildSt :=
  buildRun depsC3w fpC3w (fun _ => true) [0, 1] (initB runC5w1.artifact runC5w1.recorded)

/-- C5 (witness): after a successful first run builds both components, the
theorem yields `UpToDate` for both on the second run. -/
theorem build_idempotent_witness :
    runC5w1.status 0 = some Status.Built ∧ runC5w1.status 1 = some Status.Built ∧
    runC5w2.status 0 = some Status.UpToDate ∧ runC5w2.status 1 = some Status.UpToDate ∧
    runC5w2.rebuilt = [] := by
  have h := build_idempotent depsC3w fpC3w (fun _ => true) [0, 1] (fun _ => false)
    (fun _ => none) (by decide) (fun _ => rfl) runC5w1 runC5w2 rfl rfl
  exact ⟨by decide, by decide, h.1 0 (by decide), h.1 1 (by decide), h.2⟩

/-- Acyclic dependency graph used by the C1 witness and counterexample:
component 0 links component 2; components 1 and 2 link nothing. -/
def depsC1 : Nat → List Nat := fun i => if i = 0 then [2] else []

/-- C1 (amended): for every recipe whose `link_libs` graph is acyclic,
`build_graph` succeeds with an order containing every component exactly
once in which every component appears after all components it depends on;
the order is deterministic: at each position the earliest-declared
component whose dependencies have all been emitted is chosen, so ties
among simultaneously-ready components follow declaration order. -/
theorem build_graph_order_spec (n : Nat) (deps : Nat → List Nat)
    (hwf : WellFormed n deps) (hac : Acyclic n deps) :
    ∃ order, build_graph n deps = Except.ok order ∧
      order.Nodup ∧ (∀ i < n, i ∈ order) ∧ (∀ x ∈ order, x < n) ∧
      (∀ a ∈ order, ∀ d ∈ deps a, d ∈ order ∧ order.indexOf d < order.indexOf a) ∧
      (∀ k, (hk : k < order.length) →
          ready deps (order.take k) (order.get ⟨k, hk⟩) = true ∧
          ∀ j < order.get ⟨k, hk⟩, ready deps (order.take k) j = false) := by
  obtain ⟨order, hord⟩ := build_graph_ok_of_acyclic hwf hac
  obtain ⟨_, hnd, hlt, hcomp, htopo, hgreedy⟩ := build_graph_ok_props hord
  exact ⟨order, hord, hnd, hcomp, hlt, fun a ha d hd => topo_dep_lt htopo ha hd, hgreedy⟩

/-- C1 (witness): the amended theorem applied to the concrete acyclic
three-component recipe. -/
theorem build_graph_order_spec_witness :
    ∃ order, build_graph 3 depsC1 = Except.ok order ∧
      order.Nodup ∧ (∀ i < 3, i ∈ order) ∧ (∀ x ∈ order, x < 3) ∧
      (∀ a ∈ order, ∀ d ∈ depsC1 a, d ∈ order ∧ order.indexOf d < order.indexOf a) ∧
      (∀ k, (hk : k < order.length) →
          ready depsC1 (order.take k) (order.get ⟨k, hk⟩) = true ∧
          ∀ j < order.get ⟨k, hk⟩, ready depsC1 (order.take k) j = false) :=
  build_graph_order_spec 3 depsC1 (by decide)
    (acyclic_of_build_graph_ok (show build_graph 3 depsC1 = Except.ok [1, 2, 0] from rfl))

/-- C1 (counterexample): components 0 and 1 have no ordering constraint
between each other and 0 is declared before 1, yet `build_graph` emits the
order `[1, 2, 0]`, placing 1 before 0 — an unconstrained pair does not
appear in declaration order, refuting the claim as stated. -/
theorem build_graph_decl_order_counterexample :
    build_graph 3 depsC1 = Except.ok [1, 2, 0] ∧
    ¬ Depends depsC1 0 1 ∧ ¬ Depends depsC1 1 0 ∧
    [1, 2, 0].indexOf 1 < [1, 2, 0].indexOf 0 := by
  refine ⟨rfl, ?_, ?_, by decide⟩
  · apply not_depends_of_closed (S := fun x => x = 0 ∨ x = 2)
    · intro x y hx hy
      rcases hx with h | h <;> subst h
      · simp [depsC1] at hy
        subst hy
        exact Or.inr rfl
      · simp [depsC1] at hy
    · exact Or.inl rfl
    · intro h
      rcases h with h | h <;> exact absurd h (by decide)
  · apply not_depends_of_closed (S := fun x => x = 1)
    · intro x y hx hy
      subst hx
      simp [depsC1] at hy
    · rfl
    · intro h
      exact absurd h (by decide)

/-- Cyclic dependency graph used by the C2 witness: components 0 and 1
link each other. -/
def depsC2 : Nat → List Nat := fun i => if i = 0 then [1] else if i = 1 then [0] else []

/-- C2: for every recipe whose `link_libs` graph contains a cycle,
`build_graph` fails with a `CycleError` whose value is an ordered cycle
path over components (each consecutive pair, and the wrap-around pair, is
a dependency edge), and the pipeline aborts before any component is
built. -/
theorem build_graph_cycle_error (n : Nat) (deps : Nat → List Nat)
    (needs stepOk : Nat → Bool) (hwf : WellFormed n deps)
    (hcyc : ∃ i, i < n ∧ Depends deps i i) :
    ∃ e, build_graph n deps = Except.error e ∧ IsCycleB deps e = true ∧ e ≠ [] ∧
      (∀ x ∈ e, x < n) ∧ runPipeline n deps needs stepOk = Except.error e := by
  cases h : build_graph n deps with
  | ok order =>
    obtain ⟨i, hin, hd⟩ := hcyc
    exact absurd hd (acyclic_of_build_graph_ok h i hin)
  | error e =>
    obtain ⟨hne, hcy, hlt⟩ := build_graph_error_cycle hwf h
    refine ⟨e, rfl, hcy, hne, hlt, ?_⟩
    rw [runPipeline, h]

/-- C2 (witness): the theorem applied to the two-component recipe whose
libraries link each other. -/
theorem build_graph_cycle_error_witness :
    WellFormed 2 depsC2 ∧
    (∃ e, build_graph 2 depsC2 = Except.error e ∧ IsCycleB depsC2 e = true ∧ e ≠ [] ∧
      (∀ x ∈ e, x < 2) ∧
      runPipeline 2 depsC2 (fun _ => true) (fun _ => true) = Except.error e) := by
  refine ⟨by decide,
    build_graph_cycle_error 2 depsC2 (fun _ => true) (fun _ => true) (by decide)
      ⟨0, by decide, ?_⟩⟩
  have h1 : (1 : Nat) ∈ depsC2 0 := by decide
  have h2 : (0 : Nat) ∈ depsC2 1 := by decide
  exact Relation.TransGen.head h1 (Relation.TransGen.single h2)

/-- Platform identities distinguished by bip (doc/PLATFORMS.MD). -/
inductive Platform where
  | Windows
  | Linux
  | MacOS
deriving DecidableEq

/-- ASCII lower-casing of one character, as used for the case-insensitive
platform key. -/
def lowerChar (c : Char) : Char :=
  if 'A' ≤ c ∧ c ≤ 'Z' then Char.ofNat (c.toNat + 32) else c

/-- ASCII lower-casing of a string. -/
def lowerStr (s : String) : String := ⟨s.data.map lowerChar⟩

/-- Modelled from the spec and doc/PLATFORMS.MD: the case-insensitive
platform alias table — win/win32/windows → Windows; linux/unix → Linux;
osx/mac/darwin/macosx → MacOS; anything else is unrecognized. -/
def normalizeTag (s : String) : Option Platform :=
  let t := lowerStr s
  if t = "win" ∨ t = "win32" ∨ t = "windows" then some .Windows
  else if t = "linux" ∨ t = "unix" then some .Linux
  else if t = "osx" ∨ t = "mac" ∨ t = "darwin" ∨ t = "macosx" then some .MacOS
  else none

/-- Modelled from the spec: `applies(component, current_platform)` is true
when the platform restriction is absent or its normalized alias matches the
current platform; an unrecognized restriction yields false. -/
def applies (restriction : Option String) (current : Platform) : Bool :=
  match restriction with
  | none => true
  | some s =>
    match normalizeTag s with
    | some p => decide (p = current)
    | none => false

/-- Modelled from the spec: the non-fatal diagnostics the Platform
Resolver emits — one warning for an unrecognized restriction, nothing
otherwise (the resolver never hard-fails). -/
def resolveDiag (restriction : Option String) : List String :=
  match restriction with
  | some s => if (normalizeTag s).isNone then [s] else []
  | none => []

/-- C6: `applies` is true exactly when the restriction is absent or its
normalized alias equals the current platform; strings equal after
lower-casing behave identically (case variations of an alias are
equivalent); and an unrecognized restriction makes `applies` false while
the resolver emits a non-fatal warning instead of failing. -/
theorem applies_spec (restriction : Option String) (current : Platform) :
    (applies restriction current = true ↔
      restriction = none ∨ ∃ s, restriction = some s ∧ normalizeTag s = some current) ∧
    (∀ s t : String, lowerStr s = lowerStr t →
      applies (some s) current = applies (some t) current) ∧
    (∀ s, restriction = some s → normalizeTag s = none →
      applies restriction current = false ∧ resolveDiag restriction = [s]) := by
  refine ⟨?_, ?_, ?_⟩
  · cases restriction with
    | none => simp [applies]
    | some s =>
      show (applies (some s) current = true) ↔ _
      have happ : applies (some s) current =
          (match normalizeTag s with
           | some p => decide (p = current)
           | none => false) := rfl
      cases hn : normalizeTag s with
      | none =>
        rw [happ, hn]
        simp only [Bool.false_eq_true, false_iff]
        rintro (h | ⟨s', hs', hnorm⟩)
        · exact absurd h (by simp)
        · have : s' = s := by simpa using hs'.symm
          subst this
          rw [hn] at hnorm
          exact absurd hnorm (by simp)
      | some p =>
        rw [happ, hn]
        constructor
        · intro h
          have hp : p = current := of_decide_eq_true h
          exact Or.inr ⟨s, rfl, by rw [hn, hp]⟩
        · rintro (h | ⟨s', hs', hnorm⟩)
          · exact absurd h (by simp)
          · have : s' = s := by simpa using hs'.symm
            subst this
            rw [hn] at hnorm
            have hp : p = current := by simpa using hnorm
            simp [hp]
  · intro s t hst
    have hnt : normalizeTag s = normalizeTag t := by
      simp only [normalizeTag, hst]
    have h1 : applies (some s) current =
        (match normalizeTag s with
         | some p => decide (p = current)
         | none => false) := rfl
    have h2 : applies (some t) current =
        (match normalizeTag t with
         | some p => decide (p = current)
         | none => false) := rfl
    rw [h1, h2, hnt]
  · intro s hs hn
    subst hs
    have happ : applies (some s) current =
        (match normalizeTag s with
         | some p => decide (p = current)
         | none => false) := rfl
    refine ⟨by rw [happ, hn], ?_⟩
    have : resolveDiag (some s) = if (normalizeTag s).isNone then [s] else [] := rfl
    rw [this, hn]
    rfl

/-- C6 (witness): case variations of the same alias agree, the alias
matches its platform, and an unrecognized restriction yields false plus a
warning. -/
theorem applies_spec_witness :
    applies (some "WIN32") Platform.Windows = applies (some "win32") Platform.Windows ∧
    applies (some "win32") Platform.Windows = true ∧
    applies (some "bsd") Platform.Windows = false ∧
    resolveDiag (some "bsd") = ["bsd"] := by
  refine ⟨(applies_spec (some "WIN32") Platform.Windows).2.1 "WIN32" "win32" (by decide),
    by decide, ?_, ?_⟩
  · exact ((applies_spec (some "bsd") Platform.Windows).2.2 "bsd" rfl (by decide)).1
  · exact ((applies_spec (some "bsd") Platform.Windows).2.2 "bsd" rfl (by decide)).2

/-- Modelled from the spec: the slice of the Plugin Bridge relevant to the
`want_run` decision — the optional `want_run` hook's result (`none` when
the hook is undefined) and what the `run` hook would return. -/
structure Plugin where
  want_run : Option Bool
  run_result : Bool

/-- Modelled from the spec: the Incrementality Oracle's decision for a
plugin component is delegated to `want_run`, defaulting to true when the
hook is undefined. -/
def pluginWantsRun (p : Plugin) : Bool :=
  match p.want_run with
  | none => true
  | some b => b

/-- Outcome of scheduling one plugin component: whether `run` was invoked
and the component's persisted `BuildState` record afterwards. -/
structure PluginOutcome where
  ranHook : Bool
  state : List Nat
deriving DecidableEq

/-- Modelled from the spec: executing a plugin component — `run` is
invoked only when the oracle says so, and the prior `BuildState` record is
replaced only in that case. -/
def runPlugin (p : Plugin) (updated prior : List Nat) : PluginOutcome :=
  if pluginWantsRun p then ⟨true, updated⟩ else ⟨false, prior⟩

/-- C7: a plugin whose `want_run` hook returns false is never passed to
`run` and its prior `BuildState` record is left unchanged; when the hook
is undefined the oracle treats the plugin as always needing to run. -/
theorem want_run_gates_run (p : Plugin) (updated prior : List Nat) :
    (p.want_run = some false → runPlugin p updated prior = ⟨false, prior⟩) ∧
    (p.want_run = none →
      pluginWantsRun p = true ∧ runPlugin p updated prior = ⟨true, updated⟩) := by
  constructor
  · intro h
    simp [runPlugin, pluginWantsRun, h]
  · intro h
    simp [runPlugin, pluginWantsRun, h]

/-- C7 (witness): the theorem applied to a plugin declining to run and to
one with no `want_run` hook. -/
theorem want_run_gates_run_witness :
    runPlugin ⟨some false, true⟩ [9] [3] = ⟨false, [3]⟩ ∧
    (pluginWantsRun ⟨none, true⟩ = true ∧ runPlugin ⟨none, true⟩ [9] [3] = ⟨true, [9]⟩) :=
  ⟨(want_run_gates_run ⟨some false, true⟩ [9] [3]).1 rfl,
    (want_run_gates_run ⟨none, true⟩ [9] [3]).2 rfl⟩

/-- Compiler families bip knows how to probe for. -/
inductive ToolchainFamily where
  | msvc
  | gnu
  | clang
deriving DecidableEq

/-- Modelled from the spec: the name under which each known compiler
family can be requested by a recipe's compiler preference. -/
def familyName : ToolchainFamily → String
  | .msvc => "msvc"
  | .gnu => "gcc"
  | .clang => "clang"

/-- Modelled from the spec: the fixed probing priority order — MSVC-like
first, then GNU-like/Clang-like. -/
def probeOrder : List ToolchainFamily := [.msvc, .gnu, .clang]

/-- Modelled from the spec: a concrete compiler/linker description handed
to native components. -/
structure ToolchainDescriptor where
  family : ToolchainFamily
deriving DecidableEq

/-- Modelled from the spec: toolchain selection errors. -/
inductive ToolchainError where
  | ToolchainUnavailable
deriving DecidableEq

/-- Modelled from the spec: `select(language, preference, host)` (section
4.2) — an explicit preference must name a family installed on the host;
with no preference the known families are probed in the fixed priority
order; selection fails with `ToolchainUnavailable` rather than inventing a
toolchain that is not present. -/
def select (lang : String) (preference : Option String)
    (installed : ToolchainFamily → Bool) : Except ToolchainError ToolchainDescriptor :=
  match preference with
  | some pref =>
    match probeOrder.find? (fun f => decide (familyName f = pref)) with
    | some f => if installed f then .ok ⟨f⟩ else .error .ToolchainUnavailable
    | none => .error .ToolchainUnavailable
  | none =>
    match probeOrder.find? installed with
    | some f => .ok ⟨f⟩
    | none => .error .ToolchainUnavailable

lemma mem_probeOrder (f : ToolchainFamily) : f ∈ probeOrder := by
  cases f <;> simp [probeOrder]

lemma familyName_inj {f g : ToolchainFamily} (h : familyName f = familyName g) : f = g := by
  cases f <;> cases g <;> first
    | rfl
    | exact absurd h (by decide)

/-- C8: `select` fails with `ToolchainUnavailable` exactly when an
explicit preference names no installed family, or no preference is given
and the probing pass over the known families finds none installed; a
returned descriptor is always for a family present on the host. -/
theorem select_spec (lang : String) (preference : Option String)
    (installed : ToolchainFamily → Bool) :
    ((∃ e, select lang preference installed = Except.error e) ↔
      ((∃ p, preference = some p ∧ ∀ f, familyName f = p → installed f = false) ∨
        (preference = none ∧ ∀ f ∈ probeOrder, installed f = false))) ∧
    (∀ d, select lang preference installed = Except.ok d → installed d.family = true) := by
  constructor
  · constructor
    · rintro ⟨e, he⟩
      cases preference with
      | some pref =>
        refine Or.inl ⟨pref, rfl, ?_⟩
        intro f hf
        cases hfind : probeOrder.find? (fun g => decide (familyName g = pref)) with
        | none =>
          have := List.find?_eq_none.mp hfind f (mem_probeOrder f)
          simp [hf] at this
        | some g =>
          have hgn : familyName g = pref := by
            have := List.find?_some hfind
            simpa using this
          have hfg : f = g := familyName_inj (hf.trans hgn.symm)
          subst hfg
          have he' : (if installed f then Except.ok (ε := ToolchainError) (⟨f⟩ : ToolchainDescriptor)
              else Except.error .ToolchainUnavailable) = Except.error e := by
            have hsel : select lang (some pref) installed =
                (if installed f then Except.ok ⟨f⟩ else Except.error .ToolchainUnavailable) := by
              rw [select, hfind]
            rw [← hsel]
            exact he
          cases hi : installed f with
          | true => rw [hi] at he'; simp at he'
          | false => rfl
      | none =>
        refine Or.inr ⟨rfl, ?_⟩
        intro f hf
        cases hfind : probeOrder.find? installed with
        | none =>
          have := List.find?_eq_none.mp hfind f hf
          cases hi : installed f with
          | true => exact absurd hi this
          | false => rfl
        | some g =>
          have hsel : select lang none installed = Except.ok ⟨g⟩ := by
            rw [select, hfind]
          rw [hsel] at he
          exact absurd he (by simp)
    · rintro (⟨p, hp, hall⟩ | ⟨hp, hall⟩)
      · subst hp
        cases hfind : probeOrder.find? (fun g => decide (familyName g = p)) with
        | none =>
          exact ⟨.ToolchainUnavailable, by rw [select, hfind]⟩
        | some g =>
          have hgn : familyName g = p := by
            have := List.find?_some hfind
            simpa using this
          have hgi : installed g = false := hall g hgn
          exact ⟨.ToolchainUnavailable, by simp [select, hfind, hgi]⟩
      · subst hp
        cases hfind : probeOrder.find? installed with
        | none => exact ⟨.ToolchainUnavailable, by rw [select, hfind]⟩
        | some g =>
          have hg : installed g = true := List.find?_some hfind
          have hgm : g ∈ probeOrder := List.mem_of_find?_eq_some hfind
          rw [hall g hgm] at hg
          exact absurd hg (by simp)
  · intro d hd
    cases preference with
    | some pref =>
      cases hfind : probeOrder.find? (fun g => decide (familyName g = pref)) with
      | none =>
        rw [select, hfind] at hd
        exact absurd hd (by simp)
      | some g =>
        simp only [select, hfind] at hd
        cases hi : installed g with
        | false => simp [hi] at hd
        | true =>
          simp only [hi, if_true] at hd
          have hdg : d = ⟨g⟩ := by simpa using hd.symm
          rw [hdg]
          exact hi
    | none =>
      cases hfind : probeOrder.find? installed with
      | none =>
        rw [select, hfind] at hd
        exact absurd hd (by simp)
      | some g =>
        simp only [select, hfind] at hd
        have hdg : d = ⟨g⟩ := by simpa using hd.symm
        rw [hdg]
        exact List.find?_some hfind

/-- Host availability for the C8 witness: only clang is installed. -/
def instW : ToolchainFamily → Bool := fun f => decide (f = ToolchainFamily.clang)

/-- C8 (witness): probing picks clang (the only installed family) and the
theorem confirms the returned descriptor is installed; an explicit
preference for the missing MSVC fails with `ToolchainUnavailable`. -/
theorem select_spec_witness :
    select "c" none instW = Except.ok ⟨ToolchainFamily.clang⟩ ∧
    instW ToolchainFamily.clang = true ∧
    select "c" (some "msvc") instW = Except.error ToolchainError.ToolchainUnavailable :=
  ⟨rfl, (select_spec "c" none instW).2 ⟨ToolchainFamily.clang⟩ rfl, rfl⟩

/-- Embedding of `UniversalMkDir` from
`samples/multisrc/source/mkdir/mkdir.c`: a NULL (`none`) or empty path
returns 0 without calling the platform `MkDirImpl` (`impl`); the second
component records the arguments `MkDirImpl` was invoked with. -/
def UniversalMkDir (impl : List Char → Int) (path : Option (List Char)) :
    Int × List (List Char) :=
  match path with
  | none => (0, [])
  | some s => if s = [] then (0, []) else (impl s, [s])

/-- C9: `UniversalMkDir` returns 0 on a NULL or empty path without
attempting any directory creation, and the platform `MkDirImpl` is only
ever invoked with the given non-NULL, non-empty path. -/
theorem universalMkDir_guard (impl : List Char → Int) (path : Option (List Char)) :
    ((path = none ∨ path = some []) → UniversalMkDir impl path = (0, [])) ∧
    (∀ s ∈ (UniversalMkDir impl path).2, s ≠ [] ∧ path = some s) := by
  constructor
  · rintro (h | h) <;> subst h <;> simp [UniversalMkDir]
  · intro s hs
    cases path with
    | none => simp [UniversalMkDir] at hs
    | some t =>
      rw [UniversalMkDir] at hs
      by_cases ht : t = []
      · rw [if_pos ht] at hs
        simp at hs
      · rw [if_neg ht] at hs
        have hst : s = t := by simpa using hs
        subst hst
        exact ⟨ht, rfl⟩

/-- C9 (witness): the theorem applied at a NULL path, an empty path, and a
one-character path. -/
theorem universalMkDir_guard_witness :
    UniversalMkDir (fun _ => 1) none = (0, []) ∧
    UniversalMkDir (fun _ => 1) (some []) = (0, []) ∧
    (['a'] ≠ ([] : List Char) ∧ (some ['a'] : Option (List Char)) = some ['a']) :=
  ⟨(universalMkDir_guard (fun _ => 1) none).1 (Or.inl rfl),
    (universalMkDir_guard (fun _ => 1) (some [])).1 (Or.inr rfl),
    (universalMkDir_guard (fun _ => 1) (some ['a'])).2 ['a'] (by decide)⟩

/-- Messages the `unimkdir` sample writes to stderr. -/
inductive UniMsg where
  | usage
  | failed (arg : List Char)
deriving DecidableEq

/-- Embedding of the argument loop of
`samples/multisrc/source/unimkdir/main.c`: arguments whose first character
is a dash are skipped (options are not parsed); every other argument is
passed to `UniversalMkDir`, and a zero return prints a failure message to
stderr.  Returns the arguments passed to `UniversalMkDir` and the stderr
messages, in order. -/
def processArgs (impl : List Char → Int) : List (List Char) → List (List Char) × List UniMsg
  | [] => ([], [])
  | arg :: rest =>
    if arg.head? = some '-' then processArgs impl rest
    else
      let u := UniversalMkDir impl (some arg)
      let pr := processArgs impl rest
      (arg :: pr.1, (if u.1 = 0 then [UniMsg.failed arg] else []) ++ pr.2)

/-- Embedding of `main` from `samples/multisrc/source/unimkdir/main.c`:
with no arguments (argc < 2) print the usage message to stderr and exit 1;
otherwise process every argument and exit 0 — the C `main` falls off the
end, which returns 0.  Yields the exit code, the arguments passed to
`UniversalMkDir`, and the stderr messages. -/
def unimkdirMain (impl : List Char → Int) (args : List (List Char)) :
    Int × List (List Char) × List UniMsg :=
  match args with
  | [] => (1, [], [UniMsg.usage])
  | _ :: _ => (0, (processArgs impl args).1, (processArgs impl args).2)

lemma processArgs_calls (impl : List Char → Int) :
    ∀ args, (processArgs impl args).1 =
      args.filter (fun a => !(decide (a.head? = some '-'))) := by
  intro args
  induction args with
  | nil => rfl
  | cons a rest ih =>
    rw [processArgs]
    by_cases h : a.head? = some '-'
    · rw [if_pos h, List.filter_cons]
      simp [h, ih]
    · rw [if_neg h, List.filter_cons]
      simp [h, ih]

/-- C10: with at least one argument, the `unimkdir` process exits 0 no
matter how many `UniversalMkDir` calls fail; exactly the arguments not
beginning with a dash are passed to `UniversalMkDir`; with no arguments it
prints the usage message to stderr and exits 1. -/
theorem unimkdirMain_spec (impl : List Char → Int) (args : List (List Char)) :
    (args ≠ [] → (unimkdirMain impl args).1 = 0) ∧
    ((unimkdirMain impl args).2.1 =
      args.filter (fun a => !(decide (a.head? = some '-')))) ∧
    (args = [] → unimkdirMain impl args = (1, [], [UniMsg.usage])) := by
  refine ⟨?_, ?_, ?_⟩
  · intro h
    cases args with
    | nil => exact absurd rfl h
    | cons a rest => rfl
  · cases args with
    | nil => rfl
    | cons a rest =>
      show (processArgs impl (a :: rest)).1 = _
      exact processArgs_calls impl (a :: rest)
  · intro h
    subst h
    rfl

/-- C10 (witness): with one normal argument and one dash argument under an
always-failing `MkDirImpl`, the exit code is 0 and only the normal
argument reaches `UniversalMkDir`; with no arguments the program prints
usage and exits 1. -/
theorem unimkdirMain_spec_witness :
    (unimkdirMain (fun _ => 0) [['a'], ['-', 'x']]).1 = 0 ∧
    (unimkdirMain (fun _ => 0) [['a'], ['-', 'x']]).2.1 = [['a']] ∧
    unimkdirMain (fun _ => 0) [] = (1, [], [UniMsg.usage]) :=
  ⟨(unimkdirMain_spec (fun _ => 0) [['a'], ['-', 'x']]).1 (by decide),
    by decide,
    (unimkdirMain_spec (fun _ => 0) []).2.2 rfl⟩

end Bip
